import Mathlib

/-!
# Verification of `graphix-perceval` (MBQC pattern → Perceval circuit converter)

A shallow embedding, in Lean 4, of the parts of the `graphix_perceval` package
(`converter.py`, `experiment.py`, `clifford.py`) that the verified claims are
about, together with proofs settling those claims.

Modelling conventions:
* Python integers are `Nat`/`Int`; measurement angles and wave-plate parameters
  are exact rationals, expressed as fractions of π (so `sp.pi / 8` is `(1 : ℚ)/8`).
* Python `dict`s are insertion-ordered association lists; `dict.get` is a first-match
  lookup, `d[k] = v` overwrites in place or appends a fresh key at the end.
* Methods that can raise are embedded in `Except (PyError × State) ·`: the error
  value carries the Python exception kind together with the object state at the
  moment the exception is raised (Python mutates in place, so a raise can leave a
  partially-mutated object; carrying the state makes "state unchanged on error"
  a provable statement).
* `graphix_perceval.extraction` (the `Cluster` data type) is not part of the
  given sources; clusters are modelled from the spec, see `Cluster` below.
-/

namespace GraphixPerceval

/-- Photon roles, from `experiment.py` (`class PhotonType(Enum)`). -/
inductive PhotonType where
  | READOUT
  | COMPUTE
  | WITNESS
  | LOSS
  | NONE
  deriving DecidableEq, Repr, Inhabited

/-- A photon record, from `experiment.py` (`class Photon`).  The `angle` field
stores the two wave-plate parameters `[QWP, HWP]` as exact fractions of π. -/
structure Photon where
  id : Nat
  type : PhotonType
  node_id : Nat
  angle : ℚ × ℚ
  deriving DecidableEq, Repr, Inhabited

/-- `Photon.__init__` from `experiment.py`: given the `angle` argument (a Python
`float | None`, embedded as `Option ℚ`, in fractions of π) it stores
`[sp.pi/4, (sp.pi - 2*angle*sp.pi)/8]` when `angle` is truthy (not `None` and
nonzero) and the X-basis default `[sp.pi/4, sp.pi/8]` otherwise. -/
def Photon.make (exp_id : Nat) (tp : PhotonType) (node_id : Nat) (angle : Option ℚ) : Photon :=
  { id := exp_id
    type := tp
    node_id := node_id
    angle :=
      match angle with
      | some a => if a = 0 then (1/4, 1/8) else (1/4, (1 - 2 * a) / 8)
      | none => (1/4, 1/8) }

/-- Cluster kinds.  Modelled from the spec: `extraction.py` is not among the given
sources; the spec's data model says `Cluster = {kind: GHZ | LINEAR, graph: induced
subgraph}`, and these are exactly the two kinds `add_cluster` accepts. -/
inductive ClusterType where
  | GHZ
  | LINEAR
  deriving DecidableEq, Repr, Inhabited

/-- Modelled from the spec: a cluster produced by the (missing) decomposer,
`{kind: GHZ | LINEAR, graph: induced subgraph}`.  `add_cluster` only ever
iterates `cluster.graph.nodes`, so the graph is kept as its node list. -/
structure Cluster where
  type : ClusterType
  nodes : List Nat
  deriving DecidableEq, Repr, Inhabited

/-- Python exception kinds raised by the embedded code.  The spec's taxonomy (§7)
calls the build-order `RuntimeError`s `StateError`; we keep that name. -/
inductive PyError where
  | StateError
  | ValueError
  | TypeError
  | KeyError
  deriving DecidableEq, Repr, Inhabited

instance {ε α : Type} [DecidableEq ε] [DecidableEq α] : DecidableEq (Except ε α) := fun a b =>
  match a, b with
  | .ok x, .ok y => if h : x = y then isTrue (by rw [h]) else isFalse (by simp [h])
  | .error x, .error y => if h : x = y then isTrue (by rw [h]) else isFalse (by simp [h])
  | .ok _, .error _ => isFalse (by simp)
  | .error _, .ok _ => isFalse (by simp)

/-- First-match lookup in an insertion-ordered association list (`dict.get`). -/
def alistGet {κ α : Type} [DecidableEq κ] (d : List (κ × α)) (k : κ) : Option α :=
  match d with
  | [] => Option.none
  | (k', v) :: rest => if k' = k then some v else alistGet rest k

/-- Python `d[k] = v` on a dict embedded as an insertion-ordered association
list: overwrite in place when the key exists, else append at the end. -/
def dictSet {κ α : Type} [DecidableEq κ] (d : List (κ × α)) (k : κ) (v : α) : List (κ × α) :=
  if d.any (fun kv => kv.1 = k) then d.map (fun kv => if kv.1 = k then (k, v) else kv)
  else d ++ [(k, v)]

/-- `self.node_id2photon_ids[node_id].append(v)` / fresh-key insertion from
`add_cluster`: append `v` to the entry for `k`, or append a new entry `(k, [v])`
at the end when `k` is absent (Python dict insertion order). -/
def mapAppend (m : List (Nat × List Nat)) (k : Nat) (v : Nat) : List (Nat × List Nat) :=
  match m with
  | [] => [(k, [v])]
  | (k', vs) :: rest => if k' = k then (k', vs ++ [v]) :: rest else (k', vs) :: mapAppend rest k v

/-- The builder state, from `converter.py` (`class PercevalCircuitConstructor.__init__`).
`fusion_pairs` stores the photon ids of each pair (the Python code stores aliased
`Photon` objects; ids identify them in `photons`), and `clifford_comps` stores
`(photon_id, clifford_id)` (the Python code stores the 1-mode circuit built by
`local_clifford_circuit(clifford_id)`). -/
structure PCC where
  num_photons : Nat
  clusters : List Cluster
  fusion_pairs : List (Nat × Nat)
  photons : List Photon
  node_id2photon_ids : List (Nat × List Nat)
  clifford_comps : List (Nat × Nat)
  is_fused : Bool
  clifford_applied : Bool
  deriving DecidableEq, Repr, Inhabited

/-- `PercevalCircuitConstructor()`: the freshly-constructed builder. -/
def PCC.init : PCC :=
  { num_photons := 0
    clusters := []
    fusion_pairs := []
    photons := []
    node_id2photon_ids := []
    clifford_comps := []
    is_fused := false
    clifford_applied := false }

/-- The per-node loop body of `add_cluster`: allocate one photon per node
occurrence (role `READOUT` iff the node is in `readouts`, angle looked up in
`phasedict`), record its id under its node id, and extend the photon list. -/
def addNodes (phasedict : List (Nat × ℚ)) (readouts : List Nat) :
    List Nat → PCC → PCC
  | [], s => s
  | n :: rest, s =>
    addNodes phasedict readouts rest
      { s with
        node_id2photon_ids := mapAppend s.node_id2photon_ids n s.num_photons
        num_photons := s.num_photons + 1
        photons := s.photons ++
          [Photon.make s.num_photons
            (if n ∈ readouts then PhotonType.READOUT else PhotonType.COMPUTE) n
            (alistGet phasedict n)] }

/-- `PercevalCircuitConstructor.add_cluster`: raises `StateError` (Python
`RuntimeError("Cannot add cluster after fusion")`) before touching any state when
fusion has already run; otherwise registers the cluster's photons and appends the
cluster.  (The final `ClusterType` check cannot fail: both constructors of
`ClusterType` are supported.) -/
def add_cluster (s : PCC) (cluster : Cluster) (phasedict : List (Nat × ℚ))
    (readouts : List Nat) : Except (PyError × PCC) PCC :=
  if s.is_fused then .error (.StateError, s)
  else
    let s' := addNodes phasedict readouts cluster.nodes s
    .ok { s' with clusters := s'.clusters ++ [cluster] }

/-- `self.photons[i].type = PhotonType.WITNESS`: in-place role promotion. -/
def setWitness (phs : List Photon) (i : Nat) : List Photon :=
  phs.set i { phs.getD i default with type := PhotonType.WITNESS }

/-- Python's `sorted` on a list of ints: ascending order. -/
def pySorted (l : List Nat) : List Nat := l.mergeSort (· ≤ ·)

/-- The inner loop of `add_fusions` over one node's (sorted) photon-id group:
for each consecutive pair, append the pair and promote the higher-id photon of
the pair to `WITNESS`. -/
def fuseChain : List Photon × List (Nat × Nat) → List Nat → List Photon × List (Nat × Nat)
  | st, [] => st
  | st, [_] => st
  | (phs, prs), a :: b :: rest => fuseChain (setWitness phs b, prs ++ [(a, b)]) (b :: rest)

/-- `PercevalCircuitConstructor.add_fusions`: for every node-id group (in dict
insertion order), sort the photon ids ascending and fuse consecutive pairs, then
mark the builder fused.  The method has no guard and raises nothing. -/
def add_fusions (s : PCC) : PCC :=
  let st := s.node_id2photon_ids.foldl
    (fun (st : List Photon × List (Nat × Nat)) e => fuseChain st (pySorted e.2))
    (s.photons, s.fusion_pairs)
  { s with photons := st.1, fusion_pairs := st.2, is_fused := true }

/-- The inner loop of `apply_local_clifford` over one node's photon ids:
non-witness photons get `(ph_id, local_clifford_circuit cid)` appended
(`local_clifford_circuit` raises `ValueError` unless `0 ≤ cid ≤ 23`).  The
error carries the appends made before the raise (Python mutates the list in
place). -/
def applyCliffIds (phs : List Photon) (cid : Nat) :
    List (Nat × Nat) → List Nat → Except (PyError × List (Nat × Nat)) (List (Nat × Nat))
  | comps, [] => .ok comps
  | comps, ph_id :: rest =>
    if (phs.getD ph_id default).type ≠ PhotonType.WITNESS then
      if cid ≤ 23 then applyCliffIds phs cid (comps ++ [(ph_id, cid)]) rest
      else .error (.ValueError, comps)
    else applyCliffIds phs cid comps rest

/-- The outer loop of `apply_local_clifford` over `vops.items()`:
`self.node_id2photon_ids[node_id]` raises `KeyError` for an unknown node. -/
def applyCliffVops (phs : List Photon) (m : List (Nat × List Nat)) :
    List (Nat × Nat) → List (Nat × Nat) →
      Except (PyError × List (Nat × Nat)) (List (Nat × Nat))
  | comps, [] => .ok comps
  | comps, (node_id, cid) :: rest =>
    match alistGet m node_id with
    | Option.none => .error (.KeyError, comps)
    | some ids =>
      match applyCliffIds phs cid comps ids with
      | .error e => .error e
      | .ok comps' => applyCliffVops phs m comps' rest

/-- `PercevalCircuitConstructor.apply_local_clifford`: raises `StateError`
(Python `RuntimeError("Must fuse before applying local clifford")`) before
touching any state when fusion has not run; otherwise appends one correction
entry per non-witness photon of each node in `vops` and marks corrections
applied.  A `KeyError`/`ValueError` after the guard leaves the appends made so
far in place, which the error state records. -/
def apply_local_clifford (s : PCC) (vops : List (Nat × Nat)) : Except (PyError × PCC) PCC :=
  if s.is_fused = false then .error (.StateError, s)
  else
    match applyCliffVops s.photons s.node_id2photon_ids s.clifford_comps vops with
    | .error (e, partial_comps) => .error (e, { s with clifford_comps := partial_comps })
    | .ok comps => .ok { s with clifford_comps := comps, clifford_applied := true }

/-! ## The optical-circuit layer

Perceval components are embedded structurally: an `Atomic` element carries the
component parameters (angles as exact fractions of π), a `SubCircuit` is a
nested `pcvl.Circuit` (mode count plus placed elements), and a `TopElem` is one
`circ.add` call on the top-level circuit. -/

/-- One Perceval component, parameters as fractions of π.  `PBS` spans the two
modes at its placement offset; the others are placed on a single mode
(`PERM` spans `p.length` modes). -/
inductive Atomic where
  | PERM (p : List Nat)
  | PBS
  | HWP (xsi : ℚ)
  | QWP (xsi : ℚ)
  | WP (delta : ℚ) (xsi : ℚ)
  | PS (phi : ℚ)
  | BS (theta phi_tl phi_bl phi_tr phi_br : ℚ)
  deriving DecidableEq, Repr, Inhabited

/-- A nested `pcvl.Circuit`: mode count and placed elements `(offset, element)`. -/
structure SubCircuit where
  m : Nat
  elems : List (Nat × Atomic)
  deriving DecidableEq, Repr, Inhabited

/-- One `circ.add` on the top-level circuit: either an atomic component at an
offset, or a sub-circuit on an explicit mode list. -/
inductive TopElem where
  | atom (ofs : Nat) (a : Atomic)
  | sub (modes : List Nat) (c : SubCircuit)
  deriving DecidableEq, Repr, Inhabited

/-- `ghz_circuit` from `converter.py`: HWP(π/8) on every mode, a chain of PBS on
consecutive pairs, then HWP(π/8) on every mode except mode 0. -/
def ghz_circuit (num_photons : Nat) : SubCircuit :=
  { m := num_photons
    elems :=
      (List.range num_photons).map (fun i => (i, Atomic.HWP (1/8)))
        ++ (List.range (num_photons - 1)).map (fun i => (i, Atomic.PBS))
        ++ (List.range' 1 (num_photons - 1)).map (fun i => (i, Atomic.HWP (1/8))) }

/-- `linear_circuit` from `converter.py`: HWP(π/8) on every mode; for each
`i < n-1` a PBS on `(i, i+1)` followed, when `1 ≤ i` and `i ≠ n-2`, by an
HWP(π/8) on mode `i+1`; an identity-permutation barrier; closing HWP(π/8) on
both endpoint modes. -/
def linear_circuit (num_photons : Nat) : SubCircuit :=
  { m := num_photons
    elems :=
      (List.range num_photons).map (fun i => (i, Atomic.HWP (1/8)))
        ++ (List.range (num_photons - 1)).flatMap
          (fun i =>
            (i, Atomic.PBS) ::
              if 1 ≤ i ∧ i ≠ num_photons - 2 then [(i + 1, Atomic.HWP (1/8))] else [])
        ++ [(0, Atomic.PERM (List.range num_photons))]
        ++ [(0, Atomic.HWP (1/8)), (num_photons - 1, Atomic.HWP (1/8))] }

/-- `CLIFFORD_TO_PERCEVAL_POLAR` from `clifford.py`: the one-mode
"polarization" encoding of the 24 corrections (wave plates and phase shifters,
angles in fractions of π). -/
def CLIFFORD_TO_PERCEVAL_POLAR : List (List Atomic) :=
  [ [.WP 0 0],
    [.WP (1/2) (1/4), .PS (-(1/2))],
    [.WP (1/2) 0, .WP (1/2) (1/4), .PS (-(1/2))],
    [.WP (1/2) 0, .PS (-(1/2))],
    [.WP (-(1/4)) 0, .PS (1/4)],
    [.WP (1/4) 0, .PS (7/4)],
    [.WP (1/2) (1/8), .PS (3/2)],
    [.WP (3/4) (1/4), .PS 1],
    [.WP (1/2) (1/8), .WP (1/2) (1/4), .PS 1],
    [.WP (-(1/4)) 1, .WP (1/2) (1/4), .PS 1],
    [.WP (1/4) 1, .WP (1/2) (1/4), .PS (-1)],
    [.WP (1/2) (3/8), .PS (1/2)],
    [.WP (1/2) (3/8), .WP (1/2) (1/4)],
    [.WP (1/4) (1/4), .WP (1/2) 0],
    [.WP (1/4) (3/4), .WP (1/2) 0],
    [.WP (1/4) (1/4), .PS 1],
    [.WP (1/4) 0, .WP (1/2) (1/8)],
    [.WP (1/4) 0, .WP (1/2) (3/8), .PS 1],
    [.WP (1/4) (1/2), .WP (1/2) (3/8), .PS 1],
    [.WP (1/4) (1/2), .WP (1/2) (5/8)],
    [.WP (1/4) 0, .WP (1/4) (1/4), .PS 1],
    [.WP (1/4) (1/4), .WP (1/2) (1/8)],
    [.WP (1/4) 0, .WP (1/4) (3/4)],
    [.WP (1/4) (1/2), .WP (1/4) (1/4), .PS 1] ]

/-- `CLIFFORD_TO_PERCEVAL_BS` from `clifford.py`: the two-mode beam-splitter
"rail" encoding of the 24 corrections.  Each entry is a single
`comp.BS(theta, phi_tl, phi_bl, phi_tr, phi_br)`, angles in fractions of π
(unsupplied parameters default to 0). -/
def CLIFFORD_TO_PERCEVAL_BS : List (List Atomic) :=
  [ [.BS 0 0 0 0 0],
    [.BS 1 0 (-(1/2)) 0 (-(1/2))],
    [.BS 1 (-(1/2)) (1/2) (1/2) (1/2)],
    [.BS 0 0 (1/2) 0 (1/2)],
    [.BS 0 0 0 0 (1/2)],
    [.BS 0 0 0 0 (-(1/2))],
    [.BS (1/2) 0 (3/2) 0 (3/2)],
    [.BS (1/2) (1/2) (-(1/2)) (-(1/2)) (1/2)],
    [.BS (1/2) 0 (1/2) 0 (3/2)],
    [.BS 1 (3/4) 0 (-(3/4)) 0],
    [.BS 1 (-(3/4)) 0 (3/4) 0],
    [.BS (1/2) 0 (1/2) 0 (1/2)],
    [.BS (1/2) (3/4) (1/4) (1/4) (3/4)],
    [.BS (1/2) 0 0 (1/2) (3/2)],
    [.BS (1/2) (1/2) (3/2) 0 0],
    [.BS (1/2) 0 0 1 3],
    [.BS (1/2) 0 1 (3/4) (1/4)],
    [.BS (1/2) 0 0 (3/4) (5/4)],
    [.BS (1/2) 0 1 (1/4) (3/4)],
    [.BS (1/2) 0 0 (5/4) (3/4)],
    [.BS (1/2) (5/4) (3/4) 0 0],
    [.BS (1/2) (1/2) 0 (1/4) (5/4)],
    [.BS (1/2) 0 (1/2) (1/4) (5/4)],
    [.BS (1/2) (3/4) (5/4) 0 0] ]

/-- `CLIFFORD_CONJ` from `clifford.py`: index of the conjugated (adjoint)
Clifford operator. -/
def CLIFFORD_CONJ : List Nat :=
  [0, 1, 2, 3, 5, 4, 6, 15, 12, 9, 10, 11, 8, 13, 14, 7, 20, 22, 23, 21, 16, 19, 17, 18]

/-- The 1-mode circuit assembled by `local_clifford_circuit` once the range
check has passed: the polarization-encoding components of the given index,
each added on mode 0. -/
def polarCircuit (clifford_id : Nat) : SubCircuit :=
  { m := 1, elems := (CLIFFORD_TO_PERCEVAL_POLAR.getD clifford_id []).map (fun a => (0, a)) }

/-- `local_clifford_circuit` from `converter.py`: `ValueError` unless
`0 ≤ clifford_id ≤ 23`, else the 1-mode polarization-encoding circuit. -/
def local_clifford_circuit (clifford_id : Nat) : Except PyError SubCircuit :=
  if clifford_id ≤ 23 then .ok (polarCircuit clifford_id) else .error .ValueError

/-- `fusion_circuit` from `converter.py`.  After the conditional swap, raises
`ValueError` when the second photon is not a witness; otherwise builds an
`(l+1)`-mode circuit (`l = ph2.id - ph1.id`): when `l > 1`, a permutation
`[c, *b, a]` of `range(l)` placed at mode 1 before and after; a PBS on modes
`(0, 1)`; an HWP(π/8) on mode 1.  (`isinstance` checks are enforced by typing;
for `l + 1 ≤ 0` Perceval's `Circuit` constructor would itself reject the mode
count, a case no claim reaches, and `Int.toNat` clamps it.)  `fusionPerm L` is
the list `[c, *b, a]` obtained from `a, *b, c = list(range(0, l))`. -/
def fusionPerm (L : Nat) : List Nat := [L - 1] ++ List.range' 1 (L - 2) ++ [0]

def fusion_circuit (p1 p2 : Photon) : Except PyError SubCircuit :=
  let ph1 := if p1.type = PhotonType.WITNESS ∧ p2.id < p1.id then p2 else p1
  let ph2 := if p1.type = PhotonType.WITNESS ∧ p2.id < p1.id then p1 else p2
  if ph2.type ≠ PhotonType.WITNESS then .error .ValueError
  else
    let l : Int := (ph2.id : Int) - (ph1.id : Int)
    .ok { m := (l + 1).toNat
          elems :=
            (if 1 < l then [(1, Atomic.PERM (fusionPerm l.toNat))] else [])
              ++ [(0, Atomic.PBS), (1, Atomic.HWP (1/8))]
              ++ (if 1 < l then [(1, Atomic.PERM (fusionPerm l.toNat))] else []) }

/-- The cluster stage of `setup_perceval_circuit`: each cluster's sub-circuit on
the next contiguous block of modes, tracked by `photon_idx`. -/
def clusterStage : List Cluster → Nat → List TopElem
  | [], _ => []
  | cl :: rest, photon_idx =>
    TopElem.sub (List.range' photon_idx cl.nodes.length)
        (match cl.type with
          | .GHZ => ghz_circuit cl.nodes.length
          | .LINEAR => linear_circuit cl.nodes.length)
      :: clusterStage rest (photon_idx + cl.nodes.length)

/-- The fusion stage of `setup_perceval_circuit`: one fusion sub-circuit per
pair on modes `range(ph1.id, ph2.id + 1)`; a `ValueError` from `fusion_circuit`
propagates. -/
def fusionStage (phs : List Photon) : List (Nat × Nat) → Except PyError (List TopElem)
  | [] => .ok []
  | (i1, i2) :: rest =>
    match fusion_circuit (phs.getD i1 default) (phs.getD i2 default) with
    | .error e => .error e
    | .ok c =>
      match fusionStage phs rest with
      | .error e => .error e
      | .ok es => .ok (TopElem.sub (List.range' i1 (i2 + 1 - i1)) c :: es)

/-- `PercevalCircuitConstructor.setup_perceval_circuit` (default arguments
`name=None`, `merge=False`): raises `StateError` unless both fusion and
correction application have completed; otherwise assembles, on
`num_photons * 2` modes: the cluster stage, a barrier, the fusion stage, a
barrier, the correction stage, a barrier, the measurement-basis stage, the
encoding-conversion permutation, and one PBS per photon.  The local `circ` is
discarded if an exception propagates, so the error state is the input state. -/
def setup_perceval_circuit (s : PCC) : Except (PyError × PCC) (Nat × List TopElem) :=
  if s.is_fused = false then .error (.StateError, s)
  else if s.clifford_applied = false then .error (.StateError, s)
  else
    match fusionStage s.photons s.fusion_pairs with
    | .error e => .error (e, s)
    | .ok fes =>
      .ok (s.num_photons * 2,
        clusterStage s.clusters 0
          ++ [TopElem.atom 0 (Atomic.PERM (List.range s.num_photons))]
          ++ fes
          ++ [TopElem.atom 0 (Atomic.PERM (List.range s.num_photons))]
          ++ s.clifford_comps.map (fun pc => TopElem.sub [pc.1] (polarCircuit pc.2))
          ++ [TopElem.atom 0 (Atomic.PERM (List.range (s.num_photons * 2)))]
          ++ s.photons.flatMap
            (fun ph =>
              if ph.type = PhotonType.COMPUTE then
                [TopElem.atom ph.id (Atomic.QWP ph.angle.1),
                 TopElem.atom ph.id (Atomic.HWP ph.angle.2)]
              else [])
          ++ [TopElem.atom 0 (Atomic.PERM
                ((List.range s.num_photons).map (fun i => 2 * i)
                  ++ (List.range s.num_photons).map (fun i => 2 * i + 1)))]
          ++ (List.range s.num_photons).map (fun i => TopElem.atom (i * 2) Atomic.PBS))

/-! ## Mode-routing semantics (for C7) -/

/-- Where the content of mode `m` goes through one placed element: only `PERM`
reroutes (`comp.PERM(p)` sends input mode `i` to output mode `p[i]`), every
other component transforms content in place. -/
def elemRoute : Nat × Atomic → Nat → Nat
  | (o, .PERM p), m => if o ≤ m ∧ m - o < p.length then o + p.getD (m - o) 0 else m
  | (_, _), m => m

/-- Mode routing through a list of placed elements. -/
def routeList (es : List (Nat × Atomic)) (m : Nat) : Nat :=
  es.foldl (fun x e => elemRoute e x) m

/-- The modes whose content a placed element transforms (`PERM` only reroutes). -/
def actedModes : Nat × Atomic → List Nat
  | (_, .PERM _) => []
  | (o, .PBS) => [o, o + 1]
  | (o, .HWP _) => [o]
  | (o, .QWP _) => [o]
  | (o, .WP _ _) => [o]
  | (o, .PS _) => [o]
  | (o, .BS _ _ _ _ _) => [o, o + 1]

end GraphixPerceval

namespace GraphixPerceval

/-! ## Claim C3: build-order guards -/

/-- One `add_cluster`/`add_fusions`/`apply_local_clifford` call description, for
quantifying over call sequences. -/
structure Call where
  cluster : Cluster
  phasedict : List (Nat × ℚ)
  readouts : List Nat
  deriving DecidableEq, Repr, Inhabited

/-- A sequence of `add_cluster` calls on a fresh builder. -/
def runAdds (calls : List Call) : Except (PyError × PCC) PCC :=
  calls.foldlM (fun s c => add_cluster s c.cluster c.phasedict c.readouts) PCC.init

end GraphixPerceval

namespace GraphixPerceval

/-- C3: the builder enforces its build order with errors.  `add_cluster` after
`add_fusions` has run, `apply_local_clifford` before `add_fusions` has run, and
`setup_perceval_circuit` unless both `add_fusions` and `apply_local_clifford`
have completed, each fail with `StateError`; in each failing case the error
carries the builder state unchanged (clusters, photons, fusion pairs and
correction list are untouched, the guard being the first statement of each
method). -/
theorem C3_build_order_guards :
    (∀ (s : PCC) (c : Cluster) (pd : List (Nat × ℚ)) (ro : List Nat),
        s.is_fused = true → add_cluster s c pd ro = .error (.StateError, s))
      ∧ (∀ (s : PCC) (vops : List (Nat × Nat)),
          s.is_fused = false → apply_local_clifford s vops = .error (.StateError, s))
      ∧ (∀ s : PCC, s.is_fused = false ∨ s.clifford_applied = false →
          setup_perceval_circuit s = .error (.StateError, s)) := by
  refine ⟨fun s c pd ro h => ?_, fun s vops h => ?_, fun s h => ?_⟩
  · simp [add_cluster, h]
  · simp [apply_local_clifford, h]
  · rcases h with h | h
    · simp [setup_perceval_circuit, h]
    · simp only [setup_perceval_circuit, h]
      split <;> simp

/-- Witness for C3 at concrete builder states. -/
theorem C3_build_order_guards_witness :
    add_cluster { PCC.init with is_fused := true } ⟨.GHZ, [0]⟩ [] []
        = .error (.StateError, { PCC.init with is_fused := true })
      ∧ apply_local_clifford PCC.init [] = .error (.StateError, PCC.init)
      ∧ setup_perceval_circuit { PCC.init with is_fused := true }
        = .error (.StateError, { PCC.init with is_fused := true }) :=
  ⟨C3_build_order_guards.1 _ ⟨.GHZ, [0]⟩ [] [] rfl,
   C3_build_order_guards.2.1 PCC.init [] rfl,
   C3_build_order_guards.2.2 _ (Or.inr rfl)⟩

/-! ## Claim C7: fusion sub-circuit mode layout -/

theorem fusionPerm_length (L : Nat) (hL : 2 ≤ L) : (fusionPerm L).length = L := by
  simp [fusionPerm]
  omega

theorem fusionPerm_getD (L : Nat) (hL : 2 ≤ L) (i : Nat) (hi : i < L) :
    (fusionPerm L).getD i 0 = if i = 0 then L - 1 else if i = L - 1 then 0 else i := by
  rcases Nat.eq_zero_or_pos i with rfl | hpos
  · simp [fusionPerm]
  · obtain ⟨j, rfl⟩ : ∃ j, i = j + 1 := ⟨i - 1, by omega⟩
    simp only [fusionPerm, List.cons_append, List.nil_append, List.getD_cons_succ]
    rcases Nat.lt_or_ge j (L - 2) with hmid | hlast
    · rw [List.getD_append _ _ _ _ (by simpa using hmid),
        List.getD_eq_getElem _ _ (by simpa using hmid), List.getElem_range']
      rw [if_neg (by omega), if_neg (by omega)]
      omega
    · have hj : j + 1 = L - 1 := by omega
      rw [List.getD_append_right _ _ _ _ (by simp; omega)]
      have h0 : j - (List.range' 1 (L - 2)).length = 0 := by simp; omega
      rw [h0]
      simp [hj]
      split_ifs <;> omega

theorem fusionPerm_route (L : Nat) (hL : 2 ≤ L) (m : Nat) :
    elemRoute (1, Atomic.PERM (fusionPerm L)) m =
      if m = 1 then L else if m = L then 1 else m := by
  simp only [elemRoute, fusionPerm_length L hL]
  by_cases h1 : 1 ≤ m ∧ m - 1 < L
  · rw [if_pos h1, fusionPerm_getD L hL (m - 1) h1.2]
    split_ifs <;> omega
  · rw [if_neg h1, if_neg (by omega), if_neg (by omega)]

/-- C7: for a fusion pair with `ph2.id - ph1.id = l > 1`, `fusion_circuit`
returns an `(l+1)`-mode circuit `[pre-perm, PBS(0,1), HWP(π/8) on mode 1,
post-perm]` where pre- and post-permutation are the same involution (hence
mutually inverse); every mode strictly between the photons' modes routes back
to itself and never sits on a mode acted on by the splitter or the rotation;
the entangling splitter acts on the adjacent modes 0 and 1; and the fixed
small-angle rotation is applied to the mode holding the witness photon's
content (mode `l` routes to mode 1, where the HWP sits). -/
theorem C7_fusion_circuit_layout (p1 p2 : Photon)
    (hw : p2.type = PhotonType.WITNESS) (hlt : p1.id < p2.id)
    (hgap : 1 < p2.id - p1.id) :
    fusion_circuit p1 p2 =
        .ok { m := (p2.id - p1.id) + 1,
              elems := [(1, Atomic.PERM (fusionPerm (p2.id - p1.id))),
                        (0, Atomic.PBS), (1, Atomic.HWP (1/8)),
                        (1, Atomic.PERM (fusionPerm (p2.id - p1.id)))] }
      ∧ (∀ m : Nat,
          elemRoute (1, Atomic.PERM (fusionPerm (p2.id - p1.id)))
              (elemRoute (1, Atomic.PERM (fusionPerm (p2.id - p1.id))) m) = m)
      ∧ (∀ m : Nat, 1 ≤ m → m ≤ (p2.id - p1.id) - 1 →
          routeList [(1, Atomic.PERM (fusionPerm (p2.id - p1.id))),
                     (0, Atomic.PBS), (1, Atomic.HWP (1/8)),
                     (1, Atomic.PERM (fusionPerm (p2.id - p1.id)))] m = m
            ∧ elemRoute (1, Atomic.PERM (fusionPerm (p2.id - p1.id))) m
                ∉ actedModes (0, Atomic.PBS)
            ∧ elemRoute (1, Atomic.PERM (fusionPerm (p2.id - p1.id))) m
                ∉ actedModes (1, Atomic.HWP (1/8)))
      ∧ actedModes (0, Atomic.PBS) = [0, 1]
      ∧ elemRoute (1, Atomic.PERM (fusionPerm (p2.id - p1.id))) (p2.id - p1.id) = 1 := by
  have hL : 2 ≤ p2.id - p1.id := by omega
  have hswap : ¬(p1.type = PhotonType.WITNESS ∧ p2.id < p1.id) := fun h => by omega
  have hl : (1 : Int) < (p2.id : Int) - (p1.id : Int) := by omega
  have htn : ((p2.id : Int) - (p1.id : Int)).toNat = p2.id - p1.id := by omega
  have htn1 : ((p2.id : Int) - (p1.id : Int) + 1).toNat = (p2.id - p1.id) + 1 := by omega
  refine ⟨?_, ?_, ?_, rfl, ?_⟩
  · simp only [fusion_circuit, if_neg hswap, hw, ne_eq, not_true_eq_false, if_false,
      if_pos hl, htn, htn1]
    rfl
  · intro m
    rw [fusionPerm_route _ hL, fusionPerm_route _ hL]
    split_ifs <;> omega
  · intro m h1 h2
    have hge : 2 ≤ elemRoute (1, Atomic.PERM (fusionPerm (p2.id - p1.id))) m := by
      rw [fusionPerm_route _ hL]
      split_ifs <;> omega
    refine ⟨?_, ?_, ?_⟩
    · simp only [routeList, List.foldl]
      rw [fusionPerm_route _ hL, fusionPerm_route _ hL]
      simp only [elemRoute]
      split_ifs <;> omega
    · simp only [actedModes, List.mem_cons, List.not_mem_nil, or_false]
      omega
    · simp only [actedModes, List.mem_cons, List.not_mem_nil, or_false]
      omega
  · rw [fusionPerm_route _ hL]
    rw [if_neg (by omega), if_pos rfl]

/-- Witness for C7: a concrete non-adjacent fusion pair with gap `l = 3`. -/
theorem C7_fusion_circuit_layout_witness :
    fusion_circuit ⟨0, PhotonType.COMPUTE, 5, (1/4, 1/8)⟩ ⟨3, PhotonType.WITNESS, 5, (1/4, 1/8)⟩ =
      .ok { m := 4,
            elems := [(1, Atomic.PERM (fusionPerm 3)),
                      (0, Atomic.PBS), (1, Atomic.HWP (1/8)),
                      (1, Atomic.PERM (fusionPerm 3))] } :=
  (C7_fusion_circuit_layout ⟨0, PhotonType.COMPUTE, 5, (1/4, 1/8)⟩
    ⟨3, PhotonType.WITNESS, 5, (1/4, 1/8)⟩ rfl (by decide) (by decide)).1

/-! ## Claim C5: postselection constraint construction -/

/-- `PercevalExperiment.set_postselection` from `experiment.py`, as the list of
`PostSelect.eq(indexes, value)` conditions it registers: for every readout
photon `eq([2i, 2i+1], 1)`, then for every compute photon and every witness
photon `eq([2i], 0)` and `eq([2i+1], 1)`.  A Perceval `eq` condition requires
the photon counts over its mode list to sum to the given value. -/
def set_postselection (phs : List Photon) : List (List Nat × Nat) :=
  (phs.filter (fun ph => ph.type = PhotonType.READOUT)).map
      (fun ph => ([2 * ph.id, 2 * ph.id + 1], 1))
    ++ (phs.filter (fun ph => ph.type = PhotonType.COMPUTE)).flatMap
      (fun ph => [([2 * ph.id], 0), ([2 * ph.id + 1], 1)])
    ++ (phs.filter (fun ph => ph.type = PhotonType.WITNESS)).flatMap
      (fun ph => [([2 * ph.id], 0), ([2 * ph.id + 1], 1)])

/-- A detection outcome (photon count per mode) satisfies a list of
`PostSelect.eq` conditions. -/
def psSatisfies (a : Nat → Nat) (conds : List (List Nat × Nat)) : Prop :=
  ∀ c ∈ conds, (c.1.map a).sum = c.2

/-- The per-photon constraint the claim describes: readout photons detect
exactly one photon across their dual-rail pair, compute and witness photons
read exactly `(0, 1)`; other roles are unconstrained. -/
def photonPostCond (a : Nat → Nat) (ph : Photon) : Prop :=
  match ph.type with
  | PhotonType.READOUT => a (2 * ph.id) + a (2 * ph.id + 1) = 1
  | PhotonType.COMPUTE => a (2 * ph.id) = 0 ∧ a (2 * ph.id + 1) = 1
  | PhotonType.WITNESS => a (2 * ph.id) = 0 ∧ a (2 * ph.id + 1) = 1
  | _ => True

theorem psSatisfies_append (a : Nat → Nat) (l l' : List (List Nat × Nat)) :
    psSatisfies a (l ++ l') ↔ psSatisfies a l ∧ psSatisfies a l' :=
  List.forall_mem_append

theorem psSatisfies_readout (a : Nat → Nat) (phs : List Photon) :
    psSatisfies a ((phs.filter (fun ph => ph.type = PhotonType.READOUT)).map
        (fun ph => ([2 * ph.id, 2 * ph.id + 1], 1))) ↔
      ∀ ph ∈ phs, ph.type = PhotonType.READOUT →
        a (2 * ph.id) + a (2 * ph.id + 1) = 1 := by
  constructor
  · intro h ph hph ht
    simpa using h ([2 * ph.id, 2 * ph.id + 1], 1)
      (List.mem_map.mpr ⟨ph, List.mem_filter.mpr ⟨hph, by simp [ht]⟩, rfl⟩)
  · intro h c hc
    obtain ⟨ph, hph, rfl⟩ := List.mem_map.mp hc
    obtain ⟨hmem, ht⟩ := List.mem_filter.mp hph
    simpa using h ph hmem (by simpa using ht)

theorem psSatisfies_pair (a : Nat → Nat) (phs : List Photon) (tp : PhotonType) :
    psSatisfies a ((phs.filter (fun ph => ph.type = tp)).flatMap
        (fun ph => [([2 * ph.id], 0), ([2 * ph.id + 1], 1)])) ↔
      ∀ ph ∈ phs, ph.type = tp → a (2 * ph.id) = 0 ∧ a (2 * ph.id + 1) = 1 := by
  constructor
  · intro h ph hph ht
    constructor
    · simpa using h ([2 * ph.id], 0)
        (List.mem_flatMap.mpr ⟨ph, List.mem_filter.mpr ⟨hph, by simp [ht]⟩, by simp⟩)
    · simpa using h ([2 * ph.id + 1], 1)
        (List.mem_flatMap.mpr ⟨ph, List.mem_filter.mpr ⟨hph, by simp [ht]⟩, by simp⟩)
  · intro h c hc
    obtain ⟨ph, hph, hcm⟩ := List.mem_flatMap.mp hc
    obtain ⟨hmem, ht⟩ := List.mem_filter.mp hph
    have hc2 := h ph hmem (by simpa using ht)
    rcases (by simpa using hcm : c = ([2 * ph.id], 0) ∨ c = ([2 * ph.id + 1], 1)) with rfl | rfl
    · simpa using hc2.1
    · simpa using hc2.2

/-- C5: the postselection constraint built by `set_postselection` holds of a
detection outcome exactly when every compute and witness photon's dual-rail
pair reads `(0, 1)` and every readout photon's pair reads one count in total;
and every mode mentioned by any condition is one of the two rails of a
readout, compute or witness photon, so no other photon or mode is
constrained. -/
theorem C5_set_postselection (a : Nat → Nat) (phs : List Photon) :
    (psSatisfies a (set_postselection phs) ↔ ∀ ph ∈ phs, photonPostCond a ph)
      ∧ (∀ c ∈ set_postselection phs, ∀ m ∈ c.1, ∃ ph ∈ phs,
          (ph.type = PhotonType.READOUT ∨ ph.type = PhotonType.COMPUTE ∨
            ph.type = PhotonType.WITNESS)
            ∧ (m = 2 * ph.id ∨ m = 2 * ph.id + 1)) := by
  constructor
  · rw [set_postselection, psSatisfies_append, psSatisfies_append, psSatisfies_readout,
      psSatisfies_pair, psSatisfies_pair]
    constructor
    · rintro ⟨⟨hA, hB⟩, hC⟩ ph hph
      cases htype : ph.type with
      | READOUT => simp only [photonPostCond, htype]; exact hA ph hph htype
      | COMPUTE => simp only [photonPostCond, htype]; exact hB ph hph htype
      | WITNESS => simp only [photonPostCond, htype]; exact hC ph hph htype
      | LOSS => simp [photonPostCond, htype]
      | NONE => simp [photonPostCond, htype]
    · intro h
      refine ⟨⟨fun ph hph ht => ?_, fun ph hph ht => ?_⟩, fun ph hph ht => ?_⟩ <;>
        · have := h ph hph
          simp only [photonPostCond, ht] at this
          exact this
  · intro c hc m hm
    rw [set_postselection] at hc
    rcases List.mem_append.mp hc with hc' | hcC
    · rcases List.mem_append.mp hc' with hcA | hcB
      · obtain ⟨ph, hph, rfl⟩ := List.mem_map.mp hcA
        obtain ⟨hmem, ht⟩ := List.mem_filter.mp hph
        exact ⟨ph, hmem, Or.inl (by simpa using ht), by simpa using hm⟩
      · obtain ⟨ph, hph, hcm⟩ := List.mem_flatMap.mp hcB
        obtain ⟨hmem, ht⟩ := List.mem_filter.mp hph
        refine ⟨ph, hmem, Or.inr (Or.inl (by simpa using ht)), ?_⟩
        rcases (by simpa using hcm : c = ([2 * ph.id], 0) ∨ c = ([2 * ph.id + 1], 1)) with
          rfl | rfl
        · exact Or.inl (by simpa using hm)
        · exact Or.inr (by simpa using hm)
    · obtain ⟨ph, hph, hcm⟩ := List.mem_flatMap.mp hcC
      obtain ⟨hmem, ht⟩ := List.mem_filter.mp hph
      refine ⟨ph, hmem, Or.inr (Or.inr (by simpa using ht)), ?_⟩
      rcases (by simpa using hcm : c = ([2 * ph.id], 0) ∨ c = ([2 * ph.id + 1], 1)) with
        rfl | rfl
      · exact Or.inl (by simpa using hm)
      · exact Or.inr (by simpa using hm)

/-! ## Claim C9: raw-outcome relabelling -/

/-- The loop body of `replace_keys` (shared verbatim by `PhotonCount` and
`PhotonDistribution` in `experiment.py`): skip entries whose key is absent from
`replace_dict`, store the rest under the replacement key (the keys are already
strings, so `str(key)` is the identity). -/
def replaceStep {α : Type} (replace_dict : List (String × String))
    (acc : List (String × α)) (kv : String × α) : List (String × α) :=
  match alistGet replace_dict kv.1 with
  | Option.none => acc
  | some k' => dictSet acc k' kv.2

/-- `replace_keys` from `experiment.py`: rebuild the result map from an empty
dict by folding `replaceStep` over the original entries in order. -/
def replace_keys {α : Type} (counts : List (String × α))
    (replace_dict : List (String × String)) : List (String × α) :=
  counts.foldl (replaceStep replace_dict) []

theorem mem_dictSet {κ α : Type} [DecidableEq κ] (d : List (κ × α)) (k : κ) (v : α) (e : κ × α)
    (he : e ∈ dictSet d k v) : e = (k, v) ∨ e ∈ d := by
  unfold dictSet at he
  split at he
  · obtain ⟨x, hx, hfx⟩ := List.mem_map.mp he
    by_cases hk : x.1 = k
    · rw [if_pos hk] at hfx
      exact Or.inl hfx.symm
    · rw [if_neg hk] at hfx
      exact Or.inr (hfx ▸ hx)
  · rcases List.mem_append.mp he with h | h
    · exact Or.inr h
    · exact Or.inl (by simpa using h)

theorem replaceKeys_fold_mem {α : Type} (rd : List (String × String)) :
    ∀ (counts : List (String × α)) (acc : List (String × α)) (e : String × α),
      e ∈ counts.foldl (replaceStep rd) acc →
      e ∈ acc ∨ ∃ kv ∈ counts, alistGet rd kv.1 = some e.1 ∧ e.2 = kv.2 := by
  intro counts
  induction counts with
  | nil => exact fun acc e he => Or.inl he
  | cons kv rest ih =>
    intro acc e he
    simp only [List.foldl_cons] at he
    cases hk : alistGet rd kv.1 with
    | none =>
      rw [show replaceStep rd acc kv = acc by simp [replaceStep, hk]] at he
      rcases ih _ e he with h | ⟨kv', h1, h2⟩
      · exact Or.inl h
      · exact Or.inr ⟨kv', List.mem_cons_of_mem _ h1, h2⟩
    | some k' =>
      rw [show replaceStep rd acc kv = dictSet acc k' kv.2 by simp [replaceStep, hk]] at he
      rcases ih _ e he with h | ⟨kv', h1, h2⟩
      · rcases mem_dictSet _ _ _ _ h with rfl | h'
        · exact Or.inr ⟨kv, List.mem_cons_self .., by simpa using hk⟩
        · exact Or.inl h'
      · exact Or.inr ⟨kv', List.mem_cons_of_mem _ h1, h2⟩

theorem replaceKeys_fold_filter {α : Type} (rd : List (String × String)) :
    ∀ (counts : List (String × α)) (acc : List (String × α)),
      counts.foldl (replaceStep rd) acc =
        (counts.filter (fun kv => (alistGet rd kv.1).isSome)).foldl (replaceStep rd) acc := by
  intro counts
  induction counts with
  | nil => intro acc; rfl
  | cons kv rest ih =>
    intro acc
    cases hk : alistGet rd kv.1 with
    | none =>
      rw [List.filter_cons_of_neg (by simp [hk])]
      simp only [List.foldl_cons]
      rw [show replaceStep rd acc kv = acc by simp [replaceStep, hk]]
      exact ih _
    | some k' =>
      rw [List.filter_cons_of_pos (by simp [hk])]
      simp only [List.foldl_cons]
      exact ih _

/-- C9: `replace_keys` (identical in `PhotonCount` and `PhotonDistribution`,
which is why the value type is a parameter) produces a result containing only
entries whose raw-outcome key occurs in the replacement map, relabelled to
their mapped logical label, and raw outcomes absent from the replacement map
are simply omitted: the result is unchanged when they are filtered away first,
and no error arises (the function is total). -/
theorem C9_replace_keys {α : Type} (counts : List (String × α))
    (rd : List (String × String)) :
    (∀ e ∈ replace_keys counts rd, ∃ kv ∈ counts,
        alistGet rd kv.1 = some e.1 ∧ e.2 = kv.2)
      ∧ replace_keys counts rd =
        replace_keys (counts.filter (fun kv => (alistGet rd kv.1).isSome)) rd := by
  constructor
  · intro e he
    rcases replaceKeys_fold_mem rd counts [] e he with h | h
    · simp at h
    · exact h
  · exact replaceKeys_fold_filter rd counts []

/-! ## Claims C1, C6, C10: photon registry and fusion discovery

The statements quantify over arbitrary sequences of `add_cluster` calls via
`runAdds`.  `AddsInv` is the reachable-state invariant those sequences
maintain. -/

/-- Python `self.photons[i]`. -/
def phAt (phs : List Photon) (i : Nat) : Photon := phs.getD i default

theorem getD_set_if {α : Type} (l : List α) (i j : Nat) (a d : α) :
    (l.set i a).getD j d = if i = j ∧ j < l.length then a else l.getD j d := by
  induction l generalizing i j with
  | nil => simp
  | cons x xs ih =>
    cases i with
    | zero =>
      cases j with
      | zero => simp
      | succ j => simp
    | succ i =>
      cases j with
      | zero => simp
      | succ j =>
        simp only [List.set_cons_succ, List.getD_cons_succ, ih i j, List.length_cons]
        split_ifs <;> first | rfl | omega

theorem phAt_append_lt (phs : List Photon) (ph : Photon) (x : Nat) (h : x < phs.length) :
    phAt (phs ++ [ph]) x = phAt phs x :=
  List.getD_append _ _ _ _ h

theorem phAt_append_self (phs : List Photon) (ph : Photon) :
    phAt (phs ++ [ph]) phs.length = ph := by
  rw [phAt, List.getD_append_right _ _ _ _ (Nat.le_refl _), Nat.sub_self]
  rfl

/-- The invariant maintained by any sequence of `add_cluster` calls on a fresh
builder: photon ids are dense in list order, each node-map entry lists, in
strictly increasing order, ids of photons below the photon count whose
`node_id` is the entry's key, keys are distinct, no photon is a witness yet,
no fusion pair exists and the fused flag is clear. -/
structure AddsInv (s : PCC) : Prop where
  len : s.photons.length = s.num_photons
  ids : ∀ i, i < s.photons.length → (phAt s.photons i).id = i
  chain : ∀ e ∈ s.node_id2photon_ids, List.Chain' (· < ·) e.2
  bound : ∀ e ∈ s.node_id2photon_ids, ∀ x ∈ e.2, x < s.num_photons
  nodeOf : ∀ e ∈ s.node_id2photon_ids, ∀ x ∈ e.2, (phAt s.photons x).node_id = e.1
  keysNodup : (s.node_id2photon_ids.map Prod.fst).Nodup
  nowit : ∀ ph ∈ s.photons, ph.type ≠ PhotonType.WITNESS
  fp : s.fusion_pairs = []
  nf : s.is_fused = false

theorem AddsInv.init : AddsInv PCC.init := by
  constructor <;> simp [PCC.init, phAt]

theorem mem_mapAppend {m : List (Nat × List Nat)} {k v : Nat} {e : Nat × List Nat}
    (he : e ∈ mapAppend m k v) :
    e ∈ m ∨ (∃ vs, (k, vs) ∈ m ∧ e = (k, vs ++ [v])) ∨ e = (k, [v]) := by
  induction m with
  | nil => simpa [mapAppend] using he
  | cons a rest ih =>
    obtain ⟨k', vs⟩ := a
    by_cases hk : k' = k
    · subst hk
      rw [show mapAppend ((k', vs) :: rest) k' v = (k', vs ++ [v]) :: rest from by
        simp [mapAppend], List.mem_cons] at he
      rcases he with h | h
      · exact Or.inr (Or.inl ⟨vs, List.mem_cons_self _ _, h⟩)
      · exact Or.inl (List.mem_cons_of_mem _ h)
    · rw [show mapAppend ((k', vs) :: rest) k v = (k', vs) :: mapAppend rest k v from by
        simp [mapAppend, hk], List.mem_cons] at he
      rcases he with h0 | h0
      · exact Or.inl (by rw [h0]; exact List.mem_cons_self _ _)
      · rcases ih h0 with h | ⟨vs', h1, h2⟩ | h
        · exact Or.inl (List.mem_cons_of_mem _ h)
        · exact Or.inr (Or.inl ⟨vs', List.mem_cons_of_mem _ h1, h2⟩)
        · exact Or.inr (Or.inr h)

theorem mapAppend_keys (m : List (Nat × List Nat)) (k v : Nat) :
    (mapAppend m k v).map Prod.fst =
      if k ∈ m.map Prod.fst then m.map Prod.fst else m.map Prod.fst ++ [k] := by
  induction m with
  | nil => simp [mapAppend]
  | cons a rest ih =>
    obtain ⟨k', vs⟩ := a
    by_cases hk : k' = k
    · subst hk
      simp [mapAppend]
    · have hk' : k ≠ k' := fun h => hk h.symm
      simp only [mapAppend, if_neg hk, List.map_cons, ih, List.mem_cons, hk', false_or]
      split_ifs <;> simp

theorem AddsInv.step {s : PCC} (hs : AddsInv s) (n : Nat) (tp : PhotonType)
    (htp : tp ≠ PhotonType.WITNESS) (angle : Option ℚ) :
    AddsInv { s with
      node_id2photon_ids := mapAppend s.node_id2photon_ids n s.num_photons
      num_photons := s.num_photons + 1
      photons := s.photons ++ [Photon.make s.num_photons tp n angle] } := by
  have hlen := hs.len
  constructor <;> dsimp only
  · simp [hlen]
  · intro i hi
    simp only [List.length_append, List.length_singleton] at hi
    rcases Nat.lt_or_ge i s.photons.length with h | h
    · rw [phAt_append_lt _ _ _ h]
      exact hs.ids i h
    · have hieq : i = s.photons.length := by omega
      subst hieq
      rw [phAt_append_self]
      simp [Photon.make, hlen]
  · intro e he
    rcases mem_mapAppend he with h | ⟨vs, h1, rfl⟩ | rfl
    · exact hs.chain e h
    · refine List.Chain'.append (hs.chain _ h1) (by simp) ?_
      intro x hx y hy
      obtain ⟨_, rfl⟩ := List.mem_getLast?_eq_getLast hx
      simp only [List.head?_cons, Option.mem_def, Option.some_inj] at hy
      subst hy
      exact hs.bound _ h1 _ (List.getLast_mem _)
    · simp
  · intro e he x hx
    rcases mem_mapAppend he with h | ⟨vs, h1, rfl⟩ | rfl
    · exact Nat.lt_succ_of_lt (hs.bound e h x hx)
    · rcases List.mem_append.mp hx with h | h
      · exact Nat.lt_succ_of_lt (hs.bound _ h1 x h)
      · simp only [List.mem_singleton] at h
        omega
    · simp only [List.mem_singleton] at hx
      omega
  · intro e he x hx
    rcases mem_mapAppend he with h | ⟨vs, h1, rfl⟩ | rfl
    · have hxb : x < s.photons.length := hlen ▸ hs.bound e h x hx
      rw [phAt_append_lt _ _ _ hxb]
      exact hs.nodeOf e h x hx
    · rcases List.mem_append.mp hx with h | h
      · have hxb : x < s.photons.length := hlen ▸ hs.bound _ h1 x h
        rw [phAt_append_lt _ _ _ hxb]
        exact hs.nodeOf _ h1 x h
      · simp only [List.mem_singleton] at h
        subst h
        rw [← hlen, phAt_append_self]
        rfl
    · simp only [List.mem_singleton] at hx
      subst hx
      rw [← hlen, phAt_append_self]
      rfl
  · rw [mapAppend_keys]
    split_ifs with hmem
    · exact hs.keysNodup
    · rw [List.nodup_append]
      refine ⟨hs.keysNodup, by simp, ?_⟩
      intro a ha
      simp only [List.mem_singleton]
      intro rfl'
      exact hmem (rfl' ▸ ha)
  · intro ph hph
    rcases List.mem_append.mp hph with h | h
    · exact hs.nowit ph h
    · simp only [List.mem_singleton] at h
      subst h
      exact htp
  · exact hs.fp
  · exact hs.nf

theorem addsInv_addNodes (pd : List (Nat × ℚ)) (ro : List Nat) :
    ∀ (ns : List Nat) (s : PCC), AddsInv s → AddsInv (addNodes pd ro ns s) := by
  intro ns
  induction ns with
  | nil => exact fun s hs => hs
  | cons n rest ih =>
    intro s hs
    rw [addNodes]
    exact ih _ (hs.step n _ (by split <;> simp) _)

theorem AddsInv.withClusters {s : PCC} (hs : AddsInv s) (cs : List Cluster) :
    AddsInv { s with clusters := cs } :=
  ⟨hs.len, hs.ids, hs.chain, hs.bound, hs.nodeOf, hs.keysNodup, hs.nowit, hs.fp, hs.nf⟩

theorem addsInv_add_cluster {s s' : PCC} {c : Cluster} {pd : List (Nat × ℚ)} {ro : List Nat}
    (hs : AddsInv s) (h : add_cluster s c pd ro = .ok s') : AddsInv s' := by
  rw [add_cluster, hs.nf] at h
  simp only [Bool.false_eq_true, if_false, Except.ok.injEq] at h
  exact h ▸ (addsInv_addNodes pd ro c.nodes s hs).withClusters _

theorem addsInv_foldl :
    ∀ (calls : List Call) (s₀ : PCC), AddsInv s₀ →
      ∀ {s : PCC},
        List.foldlM (fun s c => add_cluster s c.cluster c.phasedict c.readouts) s₀ calls
          = .ok s → AddsInv s := by
  intro calls
  induction calls with
  | nil =>
    intro s₀ h s hok
    simp only [List.foldlM_nil, Except.pure, pure, Except.ok.injEq] at hok
    exact hok ▸ h
  | cons c rest ih =>
    intro s₀ h s hok
    rw [List.foldlM_cons] at hok
    cases hstep : add_cluster s₀ c.cluster c.phasedict c.readouts with
    | error e =>
      rw [hstep] at hok
      simp [Except.bind, Bind.bind] at hok
    | ok s₁ =>
      rw [hstep] at hok
      simp only [Except.bind, Bind.bind] at hok
      exact ih s₁ (addsInv_add_cluster h hstep) hok

theorem runAdds_inv {calls : List Call} {s : PCC} (h : runAdds calls = .ok s) : AddsInv s :=
  addsInv_foldl calls PCC.init AddsInv.init h

theorem pySorted_of_chain {l : List Nat} (h : List.Chain' (· < ·) l) : pySorted l = l :=
  List.mergeSort_eq_self ((List.chain'_iff_pairwise.mp h).imp Nat.le_of_lt)

theorem setWitness_length (phs : List Photon) (i : Nat) :
    (setWitness phs i).length = phs.length := by
  simp [setWitness]

theorem phAt_setWitness (phs : List Photon) (i j : Nat) :
    phAt (setWitness phs i) j =
      if i = j ∧ j < phs.length then { phAt phs j with type := PhotonType.WITNESS }
      else phAt phs j := by
  unfold phAt setWitness
  rw [getD_set_if]
  split_ifs with h
  · obtain ⟨rfl, h2⟩ := h
    rfl
  · rfl

theorem phAt_foldl_setWitness (W : List Nat) :
    ∀ (phs : List Photon) (j : Nat),
      phAt (W.foldl setWitness phs) j =
        if j ∈ W ∧ j < phs.length then { phAt phs j with type := PhotonType.WITNESS }
        else phAt phs j := by
  induction W with
  | nil => intro phs j; simp
  | cons w rest ih =>
    intro phs j
    rw [List.foldl_cons, ih, setWitness_length, phAt_setWitness]
    split_ifs <;> simp_all [List.mem_cons]

theorem foldl_setWitness_length (W : List Nat) :
    ∀ phs : List Photon, (W.foldl setWitness phs).length = phs.length := by
  induction W with
  | nil => intro phs; rfl
  | cons w rest ih =>
    intro phs
    rw [List.foldl_cons, ih, setWitness_length]

theorem fuseChain_eq :
    ∀ (l : List Nat) (phs : List Photon) (prs : List (Nat × Nat)),
      fuseChain (phs, prs) l = (l.tail.foldl setWitness phs, prs ++ l.zip l.tail) := by
  intro l
  induction l with
  | nil => intro phs prs; simp [fuseChain]
  | cons a rest ih =>
    intro phs prs
    cases rest with
    | nil => simp [fuseChain]
    | cons b rest' =>
      rw [fuseChain, ih]
      simp [List.append_assoc]

theorem foldl_fuseChain_eq (entries : List (Nat × List Nat)) :
    ∀ (phs : List Photon) (prs : List (Nat × Nat)),
      entries.foldl (fun st e => fuseChain st (pySorted e.2)) (phs, prs) =
        ((entries.flatMap (fun e => (pySorted e.2).tail)).foldl setWitness phs,
          prs ++ entries.flatMap (fun e => (pySorted e.2).zip (pySorted e.2).tail)) := by
  induction entries with
  | nil => intro phs prs; simp
  | cons e rest ih =>
    intro phs prs
    simp only [List.foldl_cons, List.flatMap_cons]
    rw [fuseChain_eq, ih, List.foldl_append, List.append_assoc]

/-- `add_fusions` in closed form: the node map and all other fields are
untouched, every photon listed in the tail of some node's sorted group is
promoted to `WITNESS`, the consecutive pairs of each sorted group are appended
to `fusion_pairs` in node-map order, and the fused flag is set. -/
theorem add_fusions_eq (s : PCC) :
    add_fusions s = { s with
      photons := (s.node_id2photon_ids.flatMap (fun e => (pySorted e.2).tail)).foldl
        setWitness s.photons
      fusion_pairs := s.fusion_pairs ++
        s.node_id2photon_ids.flatMap (fun e => (pySorted e.2).zip (pySorted e.2).tail)
      is_fused := true } := by
  simp only [add_fusions, foldl_fuseChain_eq]

theorem eq_of_keys_nodup {m : List (Nat × List Nat)} (h : (m.map Prod.fst).Nodup)
    {e e' : Nat × List Nat} (he : e ∈ m) (he' : e' ∈ m) (hk : e.1 = e'.1) : e = e' := by
  induction m with
  | nil => cases he
  | cons a rest ih =>
    simp only [List.map_cons, List.nodup_cons] at h
    rcases List.mem_cons.mp he with rfl | he1
    · rcases List.mem_cons.mp he' with rfl | he'1
      · rfl
      · exact absurd (hk ▸ List.mem_map_of_mem Prod.fst he'1) h.1
    · rcases List.mem_cons.mp he' with rfl | he'1
      · exact absurd (hk ▸ List.mem_map_of_mem Prod.fst he1) h.1
      · exact ih h.2 he1 he'1

theorem chain_head_not_mem_tail {l : List Nat} (h : List.Chain' (· < ·) l) (hne : l ≠ []) :
    l.head hne ∉ l.tail := by
  cases l with
  | nil => simp at hne
  | cons x t =>
    simp only [List.head_cons, List.tail_cons]
    intro hmem
    have hp := List.chain'_iff_pairwise.mp h
    rw [List.pairwise_cons] at hp
    exact absurd (hp.1 x hmem) (lt_irrefl x)

/-- The conclusion of claim C1 for a builder state `s`: `add_fusions` keeps the
node map, its fusion pairs are exactly the consecutive pairs of each node's
ascending-sorted photon-id group (`k-1` pairs for a group of size `k`), every
photon of a group except the lowest-id one (the head: the groups are already
ascending, so sorting fixes them) is a `WITNESS` afterwards, the lowest-id
photon is untouched, and every group ends up with at most one non-witness
photon. -/
def C1Concl (s : PCC) : Prop :=
  (add_fusions s).node_id2photon_ids = s.node_id2photon_ids
    ∧ (add_fusions s).fusion_pairs =
        s.node_id2photon_ids.flatMap (fun e => (pySorted e.2).zip (pySorted e.2).tail)
    ∧ ∀ e ∈ s.node_id2photon_ids,
        pySorted e.2 = e.2
          ∧ ((pySorted e.2).zip (pySorted e.2).tail).length = e.2.length - 1
          ∧ (∀ x ∈ e.2.tail, (phAt (add_fusions s).photons x).type = PhotonType.WITNESS)
          ∧ (∀ hne : e.2 ≠ [], phAt (add_fusions s).photons (e.2.head hne) =
              phAt s.photons (e.2.head hne))
          ∧ e.2.countP
              (fun x => (phAt (add_fusions s).photons x).type ≠ PhotonType.WITNESS) ≤ 1

/-- C1: after any sequence of `add_cluster` calls followed by one
`add_fusions`, the fusion-promotion discipline of the claim holds. -/
theorem C1_add_fusions_promotion (calls : List Call) {s : PCC}
    (h : runAdds calls = .ok s) : C1Concl s := by
  have hs := runAdds_inv h
  have hph : (add_fusions s).photons = (s.node_id2photon_ids.flatMap
      (fun e => (pySorted e.2).tail)).foldl setWitness s.photons := by
    rw [add_fusions_eq]
  refine ⟨by rw [add_fusions_eq], by rw [add_fusions_eq]; dsimp only; rw [hs.fp, List.nil_append], ?_⟩
  intro e he
  have hchain := hs.chain e he
  have hsort : pySorted e.2 = e.2 := pySorted_of_chain hchain
  have hwit : ∀ x ∈ e.2.tail, (phAt (add_fusions s).photons x).type = PhotonType.WITNESS := by
    intro x hx
    rw [hph, phAt_foldl_setWitness]
    have hxW : x ∈ s.node_id2photon_ids.flatMap (fun e' => (pySorted e'.2).tail) :=
      List.mem_flatMap.mpr ⟨e, he, by rw [hsort]; exact hx⟩
    have hxlen : x < s.photons.length := by
      rw [hs.len]
      exact hs.bound e he x (List.mem_of_mem_tail hx)
    rw [if_pos ⟨hxW, hxlen⟩]
  refine ⟨hsort, ?_, hwit, ?_, ?_⟩
  · rw [hsort, List.length_zip, List.length_tail]
    omega
  · intro hne
    have hnotW : e.2.head hne ∉
        s.node_id2photon_ids.flatMap (fun e' => (pySorted e'.2).tail) := by
      intro hmem
      obtain ⟨e', he', hx⟩ := List.mem_flatMap.mp hmem
      rw [pySorted_of_chain (hs.chain e' he')] at hx
      have hkeq : e'.1 = e.1 := by
        rw [← hs.nodeOf e' he' _ (List.mem_of_mem_tail hx),
          ← hs.nodeOf e he _ (List.head_mem hne)]
      have hee : e' = e := eq_of_keys_nodup hs.keysNodup he' he hkeq
      rw [hee] at hx
      exact chain_head_not_mem_tail hchain hne hx
    rw [hph, phAt_foldl_setWitness, if_neg (fun hcon => hnotW hcon.1)]
  · rcases hl : e.2 with _ | ⟨hd, tl⟩
    · simp
    · rw [List.countP_cons]
      have h0 : tl.countP
          (fun x => (phAt (add_fusions s).photons x).type ≠ PhotonType.WITNESS) = 0 := by
        rw [List.countP_eq_zero]
        intro x hx
        have := hwit x (by rw [hl]; exact hx)
        simp [this]
      rw [h0]
      split_ifs <;> omega

/-- Witness for C1: two clusters sharing node 8; after fusion, photon 2 is a
witness, photon 1 keeps its role, and the single fusion pair is `(1, 2)`. -/
theorem C1_add_fusions_promotion_witness :
    C1Concl
      { num_photons := 4
        clusters := [⟨ClusterType.GHZ, [7, 8]⟩, ⟨ClusterType.GHZ, [8, 9]⟩]
        fusion_pairs := []
        photons := [⟨0, PhotonType.COMPUTE, 7, (1/4, 1/8)⟩,
          ⟨1, PhotonType.COMPUTE, 8, (1/4, 1/8)⟩,
          ⟨2, PhotonType.COMPUTE, 8, (1/4, 1/8)⟩, ⟨3, PhotonType.READOUT, 9, (1/4, 1/8)⟩]
        node_id2photon_ids := [(7, [0]), (8, [1, 2]), (9, [3])]
        clifford_comps := []
        is_fused := false
        clifford_applied := false } :=
  C1_add_fusions_promotion
    [⟨⟨ClusterType.GHZ, [7, 8]⟩, [], []⟩, ⟨⟨ClusterType.GHZ, [8, 9]⟩, [], [9]⟩]
    (by rfl)

/-- The node occurrences processed by a call sequence, each paired with its
call's `phasedict` and `readouts` (the loop of `add_cluster` flattened over the
calls; photon `i` comes from the `i`-th occurrence). -/
def flatCallNodes (calls : List Call) : List (Nat × List (Nat × ℚ) × List Nat) :=
  calls.flatMap (fun c => c.cluster.nodes.map (fun n => (n, c.phasedict, c.readouts)))

/-- The photons `add_cluster` allocates for the occurrences `items`, ids
starting at `start`. -/
def mkPhotons (start : Nat) : List (Nat × List (Nat × ℚ) × List Nat) → List Photon
  | [] => []
  | (n, pd, ro) :: rest =>
    Photon.make start (if n ∈ ro then PhotonType.READOUT else PhotonType.COMPUTE) n
        (alistGet pd n) :: mkPhotons (start + 1) rest

theorem mkPhotons_length : ∀ (items : List (Nat × List (Nat × ℚ) × List Nat)) (start : Nat),
    (mkPhotons start items).length = items.length := by
  intro items
  induction items with
  | nil => intro start; rfl
  | cons a rest ih =>
    intro start
    obtain ⟨n, pd, ro⟩ := a
    simp [mkPhotons, ih]

theorem mkPhotons_append (l1 l2 : List (Nat × List (Nat × ℚ) × List Nat)) :
    ∀ start, mkPhotons start (l1 ++ l2) =
      mkPhotons start l1 ++ mkPhotons (start + l1.length) l2 := by
  induction l1 with
  | nil => intro start; simp [mkPhotons]
  | cons a rest ih =>
    intro start
    obtain ⟨n, pd, ro⟩ := a
    have harith : start + 1 + rest.length = start + (rest.length + 1) := by omega
    simp [mkPhotons, ih, harith]

theorem addNodes_state (pd : List (Nat × ℚ)) (ro : List Nat) :
    ∀ (ns : List Nat) (s : PCC),
      (addNodes pd ro ns s).photons =
          s.photons ++ mkPhotons s.num_photons (ns.map (fun n => (n, pd, ro)))
        ∧ (addNodes pd ro ns s).num_photons = s.num_photons + ns.length
        ∧ (addNodes pd ro ns s).is_fused = s.is_fused := by
  intro ns
  induction ns with
  | nil => intro s; simp [addNodes, mkPhotons]
  | cons n rest ih =>
    intro s
    rw [addNodes]
    obtain ⟨h1, h2, h3⟩ := ih { s with
      node_id2photon_ids := mapAppend s.node_id2photon_ids n s.num_photons
      num_photons := s.num_photons + 1
      photons := s.photons ++
        [Photon.make s.num_photons
          (if n ∈ ro then PhotonType.READOUT else PhotonType.COMPUTE) n
          (alistGet pd n)] }
    refine ⟨?_, ?_, ?_⟩
    · rw [h1]
      dsimp only
      rw [List.append_assoc]
      rfl
    · rw [h2]
      show s.num_photons + 1 + rest.length = s.num_photons + (n :: rest).length
      simp only [List.length_cons]
      omega
    · rw [h3]

theorem runAdds_photons :
    ∀ (calls : List Call) (s₀ : PCC), s₀.is_fused = false →
      ∀ {s : PCC},
        List.foldlM (fun s c => add_cluster s c.cluster c.phasedict c.readouts) s₀ calls
          = .ok s →
        s.photons = s₀.photons ++ mkPhotons s₀.num_photons (flatCallNodes calls) := by
  intro calls
  induction calls with
  | nil =>
    intro s₀ h0 s hok
    simp only [List.foldlM_nil, Except.pure, pure, Except.ok.injEq] at hok
    subst hok
    simp [flatCallNodes, mkPhotons]
  | cons c rest ih =>
    intro s₀ h0 s hok
    rw [List.foldlM_cons] at hok
    cases hstep : add_cluster s₀ c.cluster c.phasedict c.readouts with
    | error e =>
      rw [hstep] at hok
      simp [Except.bind, Bind.bind] at hok
    | ok s₁ =>
      rw [hstep] at hok
      simp only [Except.bind, Bind.bind] at hok
      rw [add_cluster, h0] at hstep
      simp only [Bool.false_eq_true, if_false, Except.ok.injEq] at hstep
      obtain ⟨ha1, ha2, ha3⟩ := addNodes_state c.phasedict c.readouts c.cluster.nodes s₀
      have h1 : s₁.photons = s₀.photons
          ++ mkPhotons s₀.num_photons (c.cluster.nodes.map (fun n => (n, c.phasedict, c.readouts))) := by
        rw [← hstep]
        exact ha1
      have h2 : s₁.num_photons = s₀.num_photons + c.cluster.nodes.length := by
        rw [← hstep]
        exact ha2
      have h3 : s₁.is_fused = false := by
        rw [← hstep, ha3, h0]
      have := ih s₁ h3 hok
      rw [this, h1, h2]
      simp only [flatCallNodes, List.flatMap_cons]
      rw [mkPhotons_append, List.append_assoc, List.length_map]

theorem phAt_mkPhotons :
    ∀ (items : List (Nat × List (Nat × ℚ) × List Nat)) (start i : Nat), i < items.length →
      ∀ (n : Nat) (pd : List (Nat × ℚ)) (ro : List Nat),
        items.getD i default = (n, pd, ro) →
        phAt (mkPhotons start items) i =
          Photon.make (start + i)
            (if n ∈ ro then PhotonType.READOUT else PhotonType.COMPUTE) n (alistGet pd n) := by
  intro items
  induction items with
  | nil => intro start i hi; simp at hi
  | cons a rest ih =>
    intro start i hi n pd ro hget
    obtain ⟨m, pdm, rom⟩ := a
    cases i with
    | zero =>
      simp only [List.getD_cons_zero] at hget
      injection hget with hn hrest
      injection hrest with hpd hro
      subst hn
      subst hpd
      subst hro
      simp [mkPhotons, phAt]
    | succ i =>
      simp only [List.getD_cons_succ] at hget
      simp only [List.length_cons, Nat.succ_lt_succ_iff] at hi
      have harith : start + 1 + i = start + (i + 1) := by omega
      rw [show phAt (mkPhotons start ((m, pdm, rom) :: rest)) (i + 1) =
          phAt (mkPhotons (start + 1) rest) i from rfl, ih (start + 1) i hi n pd ro hget, harith]

/-- The conclusion of claim C6 for a call sequence and the resulting builder
state: photon `i` is the `i`-th node occurrence's photon — dense id `i`, role
`READOUT` iff its node is among its own call's readout nodes and `COMPUTE`
otherwise, rotation parameters `[π/4, (π - 2aπ)/8]` when its call's phasedict
maps its node to `a` (including `a = 0`, where this equals the default) and
`[π/4, π/8]` when the node is absent. -/
def C6Concl (calls : List Call) (s : PCC) : Prop :=
  s.photons.length = (flatCallNodes calls).length
    ∧ ∀ i, i < s.photons.length → ∀ (n : Nat) (pd : List (Nat × ℚ)) (ro : List Nat),
        (flatCallNodes calls).getD i default = (n, pd, ro) →
        (phAt s.photons i).id = i
          ∧ (phAt s.photons i).node_id = n
          ∧ (phAt s.photons i).type =
              (if n ∈ ro then PhotonType.READOUT else PhotonType.COMPUTE)
          ∧ (∀ a : ℚ, alistGet pd n = some a →
              (phAt s.photons i).angle = (1/4, (1 - 2 * a) / 8))
          ∧ (alistGet pd n = Option.none → (phAt s.photons i).angle = (1/4, 1/8))

/-- C6: after any sequence of `add_cluster` calls, ids are dense in processing
order, roles follow the readout set of the allocating call, and the stored
rotation parameters follow the claimed formula (also at angle 0). -/
theorem C6_photon_allocation {calls : List Call} {s : PCC}
    (h : runAdds calls = .ok s) : C6Concl calls s := by
  have hph : s.photons = mkPhotons 0 (flatCallNodes calls) := by
    have := runAdds_photons calls PCC.init rfl h
    simpa [PCC.init] using this
  have hlen : s.photons.length = (flatCallNodes calls).length := by
    rw [hph, mkPhotons_length]
  refine ⟨hlen, ?_⟩
  intro i hi n pd ro hget
  have hi' : i < (flatCallNodes calls).length := hlen ▸ hi
  have := phAt_mkPhotons (flatCallNodes calls) 0 i hi' n pd ro hget
  rw [hph, this, Nat.zero_add]
  refine ⟨rfl, rfl, rfl, ?_, ?_⟩
  · intro a ha
    simp only [Photon.make, ha]
    split_ifs with h0
    · subst h0
      norm_num
    · rfl
  · intro ha
    simp [Photon.make, ha]

/-- Witness for C6: one LINEAR cluster with a readout node. -/
theorem C6_photon_allocation_witness :
    C6Concl [⟨⟨ClusterType.LINEAR, [1, 2]⟩, [], [2]⟩]
      { num_photons := 2
        clusters := [⟨ClusterType.LINEAR, [1, 2]⟩]
        fusion_pairs := []
        photons := [⟨0, PhotonType.COMPUTE, 1, (1/4, 1/8)⟩,
          ⟨1, PhotonType.READOUT, 2, (1/4, 1/8)⟩]
        node_id2photon_ids := [(1, [0]), (2, [1])]
        clifford_comps := []
        is_fused := false
        clifford_applied := false } :=
  C6_photon_allocation (by rfl)

theorem set_getD_self {α : Type} :
    ∀ (l : List α) (i : Nat) (d : α), i < l.length → l.set i (l.getD i d) = l := by
  intro l
  induction l with
  | nil => intro i d h; simp at h
  | cons x xs ih =>
    intro i d h
    cases i with
    | zero => simp
    | succ i =>
      simp only [List.length_cons, Nat.succ_lt_succ_iff] at h
      rw [List.getD_cons_succ, List.set_cons_succ, ih i d h]

theorem photon_update_type_self {ph : Photon} (h : ph.type = PhotonType.WITNESS) :
    { ph with type := PhotonType.WITNESS } = ph := by
  cases ph
  simp_all

theorem foldl_setWitness_id (W : List Nat) :
    ∀ phs : List Photon,
      (∀ x ∈ W, x < phs.length ∧ (phAt phs x).type = PhotonType.WITNESS) →
      W.foldl setWitness phs = phs := by
  induction W with
  | nil => intro phs _; rfl
  | cons w rest ih =>
    intro phs h
    have hw := h w (List.mem_cons_self _ _)
    have hnoop : setWitness phs w = phs := by
      unfold setWitness
      rw [show phs.getD w default = phAt phs w from rfl, photon_update_type_self hw.2]
      show phs.set w (phs.getD w default) = phs
      exact set_getD_self phs w default hw.1
    rw [List.foldl_cons, hnoop]
    exact ih phs (fun x hx => h x (List.mem_cons_of_mem _ hx))

/-- The conclusion of claim C10 for a builder state `s1` in which `add_fusions`
has already run: a second `add_fusions` call goes through (the function is
total: there is no guard to reject it), appends the same fusion pairs again so
each pair is counted twice, leaves every photon (in particular every role)
unchanged, while `add_cluster` on the same state is rejected with `StateError`. -/
def C10Concl (s1 : PCC) : Prop :=
  (add_fusions s1).photons = s1.photons
    ∧ (add_fusions s1).fusion_pairs = s1.fusion_pairs ++ s1.fusion_pairs
    ∧ (∀ p : Nat × Nat, (add_fusions s1).fusion_pairs.count p = 2 * s1.fusion_pairs.count p)
    ∧ (∀ (c : Cluster) (pd : List (Nat × ℚ)) (ro : List Nat),
        add_cluster s1 c pd ro = .error (.StateError, s1))

/-- C10: `add_fusions` is not guarded against repetition — on any
post-`add_fusions` builder reached from `add_cluster` calls, a second
`add_fusions` raises nothing, duplicates every fusion pair and changes no
photon, while only `add_cluster` is rejected after fusion. -/
theorem C10_add_fusions_repeat (calls : List Call) {s : PCC}
    (h : runAdds calls = .ok s) : C10Concl (add_fusions s) := by
  have hs := runAdds_inv h
  have hmap : (add_fusions s).node_id2photon_ids = s.node_id2photon_ids := by
    rw [add_fusions_eq]
  have hph1 : (add_fusions s).photons = (s.node_id2photon_ids.flatMap
      (fun e => (pySorted e.2).tail)).foldl setWitness s.photons := by
    rw [add_fusions_eq]
  have hpr1 : (add_fusions s).fusion_pairs =
      s.node_id2photon_ids.flatMap (fun e => (pySorted e.2).zip (pySorted e.2).tail) := by
    rw [add_fusions_eq]
    dsimp only
    rw [hs.fp, List.nil_append]
  refine ⟨?_, ?_, ?_, ?_⟩
  · rw [add_fusions_eq (add_fusions s), hmap]
    dsimp only
    apply foldl_setWitness_id
    intro x hx
    obtain ⟨e, he, hxe⟩ := List.mem_flatMap.mp hx
    have hchain := hs.chain e he
    rw [pySorted_of_chain hchain] at hxe
    have hxlen : x < s.photons.length := by
      rw [hs.len]
      exact hs.bound e he x (List.mem_of_mem_tail hxe)
    constructor
    · rw [hph1, foldl_setWitness_length]
      exact hxlen
    · rw [hph1, phAt_foldl_setWitness,
        if_pos ⟨List.mem_flatMap.mpr ⟨e, he, by rw [pySorted_of_chain hchain]; exact hxe⟩,
          hxlen⟩]
  · rw [add_fusions_eq (add_fusions s), hmap]
    dsimp only
    rw [hpr1]
  · intro p
    rw [add_fusions_eq (add_fusions s), hmap]
    dsimp only
    rw [hpr1, List.count_append]
    omega
  · intro c pd ro
    have : (add_fusions s).is_fused = true := by rw [add_fusions_eq]
    rw [add_cluster, this]
    rfl

/-- Witness for C10: the fused builder obtained from two clusters sharing
node 4. -/
theorem C10_add_fusions_repeat_witness :
    C10Concl
      (add_fusions
        { num_photons := 3
          clusters := [⟨ClusterType.GHZ, [4]⟩, ⟨ClusterType.GHZ, [4, 5]⟩]
          fusion_pairs := []
          photons := [⟨0, PhotonType.COMPUTE, 4, (1/4, 1/8)⟩,
            ⟨1, PhotonType.COMPUTE, 4, (1/4, 1/8)⟩, ⟨2, PhotonType.COMPUTE, 5, (1/4, 1/8)⟩]
          node_id2photon_ids := [(4, [0, 1]), (5, [2])]
          clifford_comps := []
          is_fused := false
          clifford_applied := false }) :=
  C10_add_fusions_repeat
    [⟨⟨ClusterType.GHZ, [4]⟩, [], []⟩, ⟨⟨ClusterType.GHZ, [4, 5]⟩, [], []⟩]
    (by rfl)

/-! ## Claim C8: the stage barriers of `setup_perceval_circuit`

The claim asserts all three barriers span the full `2 × photon_count` width.
In the source the first two barriers are `comp.PERM(list(range(self.num_photons)))`
— identity permutations over only `num_photons` of the `num_photons * 2` modes —
and only the third spans the full width, so the claim is refuted and an
amended statement is proved. -/

/-- `p` is the identity permutation on its modes. -/
def isIdPerm (p : List Nat) : Prop := p = List.range p.length

/-- A fused, correction-applied one-photon builder state on which
`setup_perceval_circuit` succeeds. -/
def C8state : PCC :=
  { num_photons := 1
    clusters := [⟨ClusterType.GHZ, [3]⟩]
    fusion_pairs := []
    photons := [⟨0, PhotonType.COMPUTE, 3, (1/4, 1/8)⟩]
    node_id2photon_ids := [(3, [0])]
    clifford_comps := []
    is_fused := true
    clifford_applied := true }

/-- The element list `setup_perceval_circuit` assembles on `C8state`. -/
def C8elems : List TopElem :=
  [TopElem.sub [0] ⟨1, [(0, Atomic.HWP (1/8))]⟩,
   TopElem.atom 0 (Atomic.PERM [0]),
   TopElem.atom 0 (Atomic.PERM [0]),
   TopElem.atom 0 (Atomic.PERM [0, 1]),
   TopElem.atom 0 (Atomic.QWP (1/4)), TopElem.atom 0 (Atomic.HWP (1/8)),
   TopElem.atom 0 (Atomic.PERM [0, 1]),
   TopElem.atom 0 Atomic.PBS]

/-- Counterexample to C8 as stated: on the one-photon builder `C8state` the
assembled network has `2` modes, but the barrier inserted after the cluster
stage (element index 1) is `PERM (range 1)`, which spans `1` mode, not the full
width `2`; likewise the second barrier (index 2).  Only the third barrier
(index 3) spans the full width. -/
theorem C8_barrier_counterexample :
    setup_perceval_circuit C8state = .ok (2, C8elems)
      ∧ C8elems.getD 1 default = TopElem.atom 0 (Atomic.PERM (List.range 1))
      ∧ C8elems.getD 2 default = TopElem.atom 0 (Atomic.PERM (List.range 1))
      ∧ (List.range 1).length ≠ 2 := by
  refine ⟨by rfl, by rfl, by rfl, by decide⟩

/-- C8 (amended): each of the three barrier insertions of
`setup_perceval_circuit` is an identity permutation, and the assembled network
has `2 × photon_count` modes; but only the barrier after the correction stage
spans the full width — the barriers after the cluster stage and after the
fusion stage span only the first `photon_count` modes. -/
theorem C8_setup_barriers {s : PCC} {m : Nat} {es : List TopElem}
    (h : setup_perceval_circuit s = .ok (m, es)) :
    m = s.num_photons * 2
      ∧ ∃ es1 es2 es3 es4,
          es = es1 ++ [TopElem.atom 0 (Atomic.PERM (List.range s.num_photons))]
            ++ es2 ++ [TopElem.atom 0 (Atomic.PERM (List.range s.num_photons))]
            ++ es3 ++ [TopElem.atom 0 (Atomic.PERM (List.range (s.num_photons * 2)))]
            ++ es4
          ∧ isIdPerm (List.range s.num_photons)
          ∧ isIdPerm (List.range (s.num_photons * 2)) := by
  rw [setup_perceval_circuit] at h
  split at h
  · exact absurd h (by simp)
  · split at h
    · exact absurd h (by simp)
    · split at h
      · exact absurd h (by simp)
      · rename_i fes hfes
        rw [Except.ok.injEq, Prod.mk.injEq] at h
        refine ⟨h.1.symm, clusterStage s.clusters 0, fes,
          s.clifford_comps.map (fun pc => TopElem.sub [pc.1] (polarCircuit pc.2)),
          s.photons.flatMap
            (fun ph =>
              if ph.type = PhotonType.COMPUTE then
                [TopElem.atom ph.id (Atomic.QWP ph.angle.1),
                 TopElem.atom ph.id (Atomic.HWP ph.angle.2)]
              else [])
            ++ [TopElem.atom 0 (Atomic.PERM
                  ((List.range s.num_photons).map (fun i => 2 * i)
                    ++ (List.range s.num_photons).map (fun i => 2 * i + 1)))]
            ++ (List.range s.num_photons).map (fun i => TopElem.atom (i * 2) Atomic.PBS),
          ?_, by simp [isIdPerm], by simp [isIdPerm]⟩
        rw [← h.2]
        simp [List.append_assoc]

/-- Witness for the amended C8 at the concrete one-photon builder. -/
theorem C8_setup_barriers_witness :
    (2 : Nat) = 1 * 2
      ∧ ∃ es1 es2 es3 es4,
          C8elems = es1 ++ [TopElem.atom 0 (Atomic.PERM (List.range 1))]
            ++ es2 ++ [TopElem.atom 0 (Atomic.PERM (List.range 1))]
            ++ es3 ++ [TopElem.atom 0 (Atomic.PERM (List.range (1 * 2)))]
            ++ es4
          ∧ isIdPerm (List.range 1)
          ∧ isIdPerm (List.range (1 * 2)) :=
  @C8_setup_barriers C8state 2 C8elems (by rfl)

/-! ## Claim C4: output-state enumeration

`set_output_states` is embedded with keys as the occupation-number lists fed
to `pcvl.BasicState` (the `BasicState` string rendering, `"|a,b,...>"`, is
injective on occupation lists of a fixed experiment, so the dict structure is
the same) and values as the Python label strings `f"|{x:0{R}b}>"`. -/

/-- `itertools.product([zero, one], repeat=r)` with `zero = [0,1]`,
`one = [1,0]`: all `r`-tuples, first component varying slowest. -/
def pyProduct : Nat → List (List (List Nat))
  | 0 => [[]]
  | r + 1 => ([[0, 1], [1, 0]] : List (List Nat)).flatMap (fun b => (pyProduct r).map (b :: ·))

/-- Big-endian binary digits of `x`, at least one digit (Python `format(x, 'b')`). -/
def binDigits (x : Nat) : List Char :=
  if x < 2 then [if x % 2 = 1 then '1' else '0']
  else binDigits (x / 2) ++ [if x % 2 = 1 then '1' else '0']
decreasing_by omega

/-- Python `f"|{x:0{r}b}>"`: binary digits of `x`, left-padded with `'0'` to
width `r` (never truncated; at least one digit). -/
def pyLabel (r x : Nat) : String :=
  "|" ++ String.mk (List.replicate (r - (binDigits x).length) '0' ++ binDigits x) ++ ">"

/-- One loop iteration's `basic_out_state` of `set_output_states` (before
flattening): start from `[[]] * len(self.photons)`, set every witness slot and
every compute slot to `zero = [0,1]`, then set readout `i`'s slot to `st[i]`. -/
def basicOutState (phs : List Photon) (st : List (List Nat)) : List (List Nat) :=
  (List.range (phs.filter (fun ph => ph.type = PhotonType.READOUT)).length).foldl
    (fun sl i =>
      sl.set ((phs.filter (fun ph => ph.type = PhotonType.READOUT)).getD i default).id
        (st.getD i []))
    ((phs.filter (fun ph => ph.type = PhotonType.COMPUTE)).foldl
      (fun sl c => sl.set c.id [0, 1])
      ((phs.filter (fun ph => ph.type = PhotonType.WITNESS)).foldl
        (fun sl w => sl.set w.id [0, 1])
        (List.replicate phs.length ([] : List Nat))))

/-- `PercevalExperiment.set_output_states`: enumerate the `2^R` readout basis
assignments in product order, and store, in an insertion-ordered dict, the
flattened `basic_out_state` of each against the label of the running counter
`x` (which equals the enumeration index). -/
def set_output_states (phs : List Photon) : List (List Nat × String) :=
  ((pyProduct (phs.filter (fun ph => ph.type = PhotonType.READOUT)).length).enum).foldl
    (fun out xst =>
      dictSet out (basicOutState phs xst.2).flatten
        (pyLabel (phs.filter (fun ph => ph.type = PhotonType.READOUT)).length xst.1))
    []

theorem pyProduct_succ (r : Nat) :
    pyProduct (r + 1) =
      (pyProduct r).map ([0, 1] :: ·) ++ (pyProduct r).map ([1, 0] :: ·) := by
  simp [pyProduct]

theorem pyProduct_length : ∀ r, (pyProduct r).length = 2 ^ r := by
  intro r
  induction r with
  | zero => rfl
  | succ r ih =>
    rw [pyProduct_succ, List.length_append, List.length_map, List.length_map, ih, pow_succ]
    omega

theorem pyProduct_mem : ∀ r, ∀ st ∈ pyProduct r,
    st.length = r ∧ ∀ b ∈ st, b = [0, 1] ∨ b = [1, 0] := by
  intro r
  induction r with
  | zero =>
    intro st hst
    simp only [pyProduct, List.mem_singleton] at hst
    subst hst
    simp
  | succ r ih =>
    intro st hst
    rw [pyProduct_succ] at hst
    rcases List.mem_append.mp hst with h | h <;>
      · obtain ⟨st', hst', rfl⟩ := List.mem_map.mp h
        obtain ⟨hlen, hmem⟩ := ih st' hst'
        refine ⟨by simp [hlen], ?_⟩
        intro b hb
        rcases List.mem_cons.mp hb with rfl | hb
        · simp
        · exact hmem b hb

theorem getD_map_cons : ∀ (l : List (List (List Nat))) (j : Nat) (d : List (List Nat))
    (b : List Nat), j < l.length → (List.map (b :: ·) l).getD j d = b :: l.getD j [] := by
  intro l
  induction l with
  | nil => intro j d b h; simp at h
  | cons x xs ih =>
    intro j d b h
    cases j with
    | zero => simp
    | succ j =>
      simp only [List.map_cons, List.getD_cons_succ]
      exact ih j d b (by simpa using h)

theorem pyProduct_getD : ∀ r, ∀ j < 2 ^ r,
    (pyProduct r).getD j [] =
      (List.range r).map (fun i => if j.testBit (r - 1 - i) then [1, 0] else [0, 1]) := by
  intro r
  induction r with
  | zero =>
    intro j hj
    interval_cases j
    rfl
  | succ r ih =>
    intro j hj
    rw [pyProduct_succ]
    rcases Nat.lt_or_ge j (2 ^ r) with h | h
    · rw [List.getD_append _ _ _ _ (by rw [List.length_map, pyProduct_length]; exact h),
        getD_map_cons _ _ _ _ (by rw [pyProduct_length]; exact h),
        ih j h, List.range_succ_eq_map, List.map_cons, List.map_map]
      have hhead : j.testBit (r + 1 - 1 - 0) = false :=
        Nat.testBit_lt_two_pow (by simpa using h)
      rw [hhead]
      simp only [Bool.false_eq_true, if_false, List.cons.injEq, true_and]
      apply List.map_congr_left
      intro i hi
      simp only [Function.comp_apply]
      have : r + 1 - 1 - (i + 1) = r - 1 - i := by omega
      rw [this]
    · obtain ⟨j', rfl⟩ : ∃ j', j = 2 ^ r + j' := ⟨j - 2 ^ r, by omega⟩
      have hj' : j' < 2 ^ r := by
        rw [pow_succ] at hj
        omega
      rw [List.getD_append_right _ _ _ _ (by rw [List.length_map, pyProduct_length]; exact h),
        List.length_map, pyProduct_length]
      have hidx : 2 ^ r + j' - 2 ^ r = j' := by omega
      rw [hidx, getD_map_cons _ _ _ _ (by rw [pyProduct_length]; exact hj'),
        ih j' hj', List.range_succ_eq_map, List.map_cons, List.map_map]
      have hhead : (2 ^ r + j').testBit (r + 1 - 1 - 0) = true := by
        simp only [Nat.add_sub_cancel, Nat.sub_zero]
        rw [Nat.testBit_two_pow_add_eq, Nat.testBit_lt_two_pow hj']
        rfl
      rw [hhead]
      simp only [if_true, List.cons.injEq, true_and]
      apply List.map_congr_left
      intro i hi
      simp only [Function.comp_apply]
      have harith : r + 1 - 1 - (i + 1) = r - 1 - i := by omega
      rw [harith, Nat.testBit_two_pow_add_gt (by simp at hi; omega)]

theorem foldl_set_length {β α : Type} (f : β → Nat) (g : β → α) :
    ∀ (L : List β) (sl : List α),
      (L.foldl (fun sl' b => sl'.set (f b) (g b)) sl).length = sl.length := by
  intro L
  induction L with
  | nil => intro sl; rfl
  | cons b L' ih =>
    intro sl
    rw [List.foldl_cons, ih, List.length_set]

theorem foldl_set_getD {β α : Type} (f : β → Nat) (g : β → α) :
    ∀ (L : List β) (sl : List α) (p : Nat) (d : α),
      (∀ b ∈ L, f b < sl.length) → (L.map f).Nodup →
      (L.foldl (fun sl' b => sl'.set (f b) (g b)) sl).getD p d =
        match L.find? (fun b => f b = p) with
        | some b => g b
        | Option.none => sl.getD p d := by
  intro L
  induction L with
  | nil => intro sl p d _ _; rfl
  | cons b L' ih =>
    intro sl p d hlt hnd
    simp only [List.map_cons, List.nodup_cons] at hnd
    rw [List.foldl_cons,
      ih _ p d (fun b' hb' => by rw [List.length_set]; exact hlt b' (List.mem_cons_of_mem _ hb'))
        hnd.2]
    cases hfind : L'.find? (fun b' => f b' = p) with
    | some b'' =>
      have hp : f b'' = p := by simpa using List.find?_some hfind
      have hb'' : b'' ∈ L' := List.mem_of_find?_eq_some hfind
      have hne : f b ≠ p := fun hcon =>
        hnd.1 (by rw [hcon, ← hp]; exact List.mem_map_of_mem f hb'')
      have hneg : ¬((fun b' => decide (f b' = p)) b = true) := by simpa using hne
      rw [@List.find?_cons_of_neg β (fun b' => decide (f b' = p)) b L' hneg, hfind]
    | none =>
      by_cases hp : f b = p
      · have hpos : ((fun b' => decide (f b' = p)) b = true) := by simpa using hp
        rw [@List.find?_cons_of_pos β (fun b' => decide (f b' = p)) b L' hpos, getD_set_if,
          if_pos ⟨hp, hp ▸ hlt b (List.mem_cons_self _ _)⟩]
      · have hneg : ¬((fun b' => decide (f b' = p)) b = true) := by simpa using hp
        rw [@List.find?_cons_of_neg β (fun b' => decide (f b' = p)) b L' hneg, hfind, getD_set_if,
          if_neg (fun hcon => hp hcon.1)]

theorem find?_eq_some_of_mem_nodup {β : Type} (f : β → Nat) :
    ∀ (L : List β), (L.map f).Nodup → ∀ b₀ ∈ L, L.find? (fun b => f b = f b₀) = some b₀ := by
  intro L
  induction L with
  | nil => intro _ b₀ h; cases h
  | cons b L' ih =>
    intro hnd b₀ hb₀
    simp only [List.map_cons, List.nodup_cons] at hnd
    rcases List.mem_cons.mp hb₀ with rfl | hb₀'
    · rw [@List.find?_cons_of_pos β (fun b' => decide (f b' = f b₀)) b₀ L' (by simp)]
    · have hne : f b ≠ f b₀ := fun hcon => hnd.1 (hcon ▸ List.mem_map_of_mem f hb₀')
      rw [@List.find?_cons_of_neg β (fun b' => decide (f b' = f b₀)) b L' (by simpa using hne)]
      exact ih hnd.2 b₀ hb₀'

theorem range_set_foldl_eq :
    ∀ (ro : List Photon) (st : List (List Nat)) (sl : List (List Nat)),
      st.length = ro.length →
      (List.range ro.length).foldl
          (fun sl' i => sl'.set (ro.getD i default).id (st.getD i [])) sl
        = (ro.zip st).foldl (fun sl' b => sl'.set b.1.id b.2) sl := by
  intro ro
  induction ro with
  | nil => intro st sl _; rfl
  | cons ph ro' ih =>
    intro st sl h
    cases st with
    | nil => simp at h
    | cons s0 st' =>
      simp only [List.length_cons] at h
      rw [show (ph :: ro').length = ro'.length + 1 from rfl, List.range_succ_eq_map,
        List.foldl_cons, List.foldl_map]
      rw [show ((sl.set ((ph :: ro').getD 0 default).id ((s0 :: st').getD 0 []))
          = sl.set ph.id s0) from rfl]
      rw [show (fun (x : List (List Nat)) (y : Nat) =>
          x.set ((ph :: ro').getD y.succ default).id ((s0 :: st').getD y.succ []))
          = (fun x y => x.set (ro'.getD y default).id (st'.getD y [])) from rfl]
      rw [ih st' (sl.set ph.id s0) (by omega)]
      rfl

theorem zip_map_fst_id (ro : List Photon) (st : List (List Nat))
    (h : ro.length ≤ st.length) :
    (ro.zip st).map (fun b => b.1.id) = ro.map Photon.id := by
  rw [show (fun (b : Photon × List Nat) => b.1.id) = Photon.id ∘ Prod.fst from rfl,
    ← List.map_map, List.map_fst_zip _ _ h]

theorem ids_cover (phs : List Photon) (hid : ∀ ph ∈ phs, ph.id < phs.length)
    (hinj : (phs.map Photon.id).Nodup) : ∀ p, p < phs.length → ∃ ph ∈ phs, ph.id = p := by
  intro p hp
  have hsub : (phs.map Photon.id) ⊆ List.range phs.length := by
    intro x hx
    obtain ⟨ph, hph, rfl⟩ := List.mem_map.mp hx
    exact List.mem_range.mpr (hid ph hph)
  have hsp : List.Subperm (phs.map Photon.id) (List.range phs.length) := hinj.subperm hsub
  have hperm : (phs.map Photon.id).Perm (List.range phs.length) :=
    hsp.perm_of_length_le (by simp)
  have hmem : p ∈ phs.map Photon.id := hperm.mem_iff.mpr (List.mem_range.mpr hp)
  obtain ⟨ph, hph, hid'⟩ := List.mem_map.mp hmem
  exact ⟨ph, hph, hid'⟩

theorem filter_ids_nodup (phs : List Photon) (hinj : (phs.map Photon.id).Nodup)
    (q : Photon → Bool) : ((phs.filter q).map Photon.id).Nodup :=
  hinj.sublist ((phs.filter_sublist).map Photon.id)

theorem map_range_getD {α β : Type} [Inhabited α] (l : List α) (h : α → β) :
    (List.range l.length).map (fun i => h (l.getD i default)) = l.map h := by
  induction l with
  | nil => rfl
  | cons x xs ih =>
    rw [List.length_cons, List.range_succ_eq_map, List.map_cons, List.map_map, List.map_cons]
    exact congrArg (h x :: ·)
      (by rw [show ((fun i => h ((x :: xs).getD i default)) ∘ Nat.succ)
            = (fun i => h (xs.getD i default)) from rfl, ih])

theorem basicOutState_length (phs : List Photon) (st : List (List Nat)) :
    (basicOutState phs st).length = phs.length := by
  rw [basicOutState, foldl_set_length (fun i : Nat =>
      ((phs.filter (fun ph => ph.type = PhotonType.READOUT)).getD i default).id)
      (fun i => st.getD i []),
    foldl_set_length Photon.id (fun _ => [0, 1]),
    foldl_set_length Photon.id (fun _ => [0, 1]), List.length_replicate]

theorem innerStack_length (phs : List Photon) :
    ((phs.filter (fun ph => ph.type = PhotonType.COMPUTE)).foldl
      (fun sl c => sl.set c.id [0, 1])
      ((phs.filter (fun ph => ph.type = PhotonType.WITNESS)).foldl
        (fun sl w => sl.set w.id [0, 1])
        (List.replicate phs.length ([] : List Nat)))).length = phs.length := by
  rw [foldl_set_length Photon.id (fun _ => [0, 1]),
    foldl_set_length Photon.id (fun _ => [0, 1]), List.length_replicate]

theorem getD_mem {α : Type} [Inhabited α] (l : List α) (i : Nat) (h : i < l.length) (d : α) :
    l.getD i d ∈ l := by
  rw [List.getD_eq_getElem l d h]
  exact List.getElem_mem h

theorem basicOutState_getD_nonreadout (phs : List Photon) (st : List (List Nat))
    (hid : ∀ ph ∈ phs, ph.id < phs.length)
    (hinj : (phs.map Photon.id).Nodup)
    (ph : Photon) (hph : ph ∈ phs)
    (ht : ph.type = PhotonType.COMPUTE ∨ ph.type = PhotonType.WITNESS) :
    (basicOutState phs st).getD ph.id [] = [0, 1] := by
  have hphr : ∀ ph' ∈ phs.filter (fun ph'' => ph''.type = PhotonType.READOUT), ph' ∈ phs :=
    fun ph' h => (List.mem_filter.mp h).1
  have hphc : ∀ ph' ∈ phs.filter (fun ph'' => ph''.type = PhotonType.COMPUTE), ph' ∈ phs :=
    fun ph' h => (List.mem_filter.mp h).1
  have hphw : ∀ ph' ∈ phs.filter (fun ph'' => ph''.type = PhotonType.WITNESS), ph' ∈ phs :=
    fun ph' h => (List.mem_filter.mp h).1
  rw [basicOutState,
    foldl_set_getD (fun i => ((phs.filter (fun ph'' => ph''.type = PhotonType.READOUT)).getD
        i default).id) (fun i => st.getD i []) _ _ _ _
      (fun i hi => by
        rw [innerStack_length]
        exact hid _ (hphr _ (getD_mem _ _ (List.mem_range.mp hi) _)))
      (by
        rw [map_range_getD (phs.filter (fun ph'' => ph''.type = PhotonType.READOUT)) Photon.id]
        exact filter_ids_nodup phs hinj _)]
  have hfind0 : (List.range
      (phs.filter (fun ph'' => ph''.type = PhotonType.READOUT)).length).find?
      (fun i => ((phs.filter (fun ph'' => ph''.type = PhotonType.READOUT)).getD i default).id
        = ph.id) = Option.none := by
    rw [List.find?_eq_none]
    intro i hi
    simp only [decide_eq_true_eq]
    intro hcon
    have hmem := getD_mem (phs.filter (fun ph'' => ph''.type = PhotonType.READOUT)) i
      (List.mem_range.mp hi) default
    have heq := List.inj_on_of_nodup_map hinj (hphr _ hmem) hph hcon
    have htr := (List.mem_filter.mp hmem).2
    rw [heq] at htr
    rcases ht with h | h <;> rw [h] at htr <;> simp at htr
  rw [hfind0, foldl_set_getD Photon.id (fun _ => ([0, 1] : List Nat)) _ _ _ _
    (fun b hb => by
      rw [foldl_set_length Photon.id (fun _ => [0, 1]), List.length_replicate]
      exact hid b (hphc b hb))
    (filter_ids_nodup phs hinj _)]
  rcases ht with hC | hW
  · have hfindC : (phs.filter (fun ph'' => ph''.type = PhotonType.COMPUTE)).find?
        (fun b => b.id = ph.id) = some ph :=
      find?_eq_some_of_mem_nodup Photon.id _ (filter_ids_nodup phs hinj _) ph
        (List.mem_filter.mpr ⟨hph, by simp [hC]⟩)
    rw [hfindC]
  · have hfindC : (phs.filter (fun ph'' => ph''.type = PhotonType.COMPUTE)).find?
        (fun b => b.id = ph.id) = Option.none := by
      rw [List.find?_eq_none]
      intro b hb
      simp only [decide_eq_true_eq]
      intro hcon
      have heq := List.inj_on_of_nodup_map hinj (hphc b hb) hph hcon
      have htc := (List.mem_filter.mp hb).2
      rw [heq, hW] at htc
      simp at htc
    rw [hfindC, foldl_set_getD Photon.id (fun _ => ([0, 1] : List Nat)) _ _ _ _
      (fun b hb => by
        rw [List.length_replicate]
        exact hid b (hphw b hb))
      (filter_ids_nodup phs hinj _)]
    have hfindW : (phs.filter (fun ph'' => ph''.type = PhotonType.WITNESS)).find?
        (fun b => b.id = ph.id) = some ph :=
      find?_eq_some_of_mem_nodup Photon.id _ (filter_ids_nodup phs hinj _) ph
        (List.mem_filter.mpr ⟨hph, by simp [hW]⟩)
    rw [hfindW]

theorem basicOutState_getD_readout (phs : List Photon) (st : List (List Nat))
    (hid : ∀ ph ∈ phs, ph.id < phs.length)
    (hinj : (phs.map Photon.id).Nodup)
    (i : Nat) (hi : i < (phs.filter (fun ph => ph.type = PhotonType.READOUT)).length) :
    (basicOutState phs st).getD
        ((phs.filter (fun ph => ph.type = PhotonType.READOUT)).getD i default).id []
      = st.getD i [] := by
  have hphr : ∀ ph' ∈ phs.filter (fun ph'' => ph''.type = PhotonType.READOUT), ph' ∈ phs :=
    fun ph' h => (List.mem_filter.mp h).1
  rw [basicOutState,
    foldl_set_getD (fun i' => ((phs.filter (fun ph'' => ph''.type = PhotonType.READOUT)).getD
        i' default).id) (fun i' => st.getD i' []) _ _ _ _
      (fun i' hi' => by
        rw [innerStack_length]
        exact hid _ (hphr _ (getD_mem _ _ (List.mem_range.mp hi') _)))
      (by
        rw [map_range_getD (phs.filter (fun ph'' => ph''.type = PhotonType.READOUT)) Photon.id]
        exact filter_ids_nodup phs hinj _)]
  have hfind : (List.range
      (phs.filter (fun ph'' => ph''.type = PhotonType.READOUT)).length).find?
      (fun i' => ((phs.filter (fun ph'' => ph''.type = PhotonType.READOUT)).getD i' default).id
        = ((phs.filter (fun ph'' => ph''.type = PhotonType.READOUT)).getD i default).id)
      = some i := by
    refine find?_eq_some_of_mem_nodup
      (fun i' => ((phs.filter (fun ph'' => ph''.type = PhotonType.READOUT)).getD i' default).id)
      _ ?_ i (List.mem_range.mpr hi)
    rw [map_range_getD (phs.filter (fun ph'' => ph''.type = PhotonType.READOUT)) Photon.id]
    exact filter_ids_nodup phs hinj _
  rw [hfind]

theorem nodup_of_getElem_inj {α : Type} (l : List α)
    (h : ∀ (i j : Nat) (hi : i < l.length) (hj : j < l.length), l[i] = l[j] → i = j) :
    l.Nodup := by
  rw [List.nodup_iff_injective_getElem]
  intro i j hij
  exact Fin.ext (h i.1 j.1 i.2 j.2 hij)

theorem bits_succ_append (R x : Nat) :
    (List.range (R + 1)).map (fun i => if x.testBit (R + 1 - 1 - i) then '1' else '0')
      = (List.range R).map (fun i => if (x / 2).testBit (R - 1 - i) then '1' else '0')
        ++ [if x % 2 = 1 then '1' else '0'] := by
  rw [List.range_succ, List.map_append, List.map_singleton]
  have hlast : (if x.testBit (R + 1 - 1 - R) then '1' else '0')
      = (if x % 2 = 1 then '1' else '0') := by
    have : R + 1 - 1 - R = 0 := by omega
    rw [this, Nat.testBit_zero]
    by_cases h : x % 2 = 1 <;> simp [h]
  rw [hlast]
  apply congrArg (· ++ [if x % 2 = 1 then '1' else '0'])
  apply List.map_congr_left
  intro i hi
  have hi' : i < R := List.mem_range.mp hi
  have : R + 1 - 1 - i = (R - 1 - i) + 1 := by omega
  rw [this, Nat.testBit_succ]

theorem pad_binDigits_eq : ∀ R, 1 ≤ R → ∀ x, x < 2 ^ R →
    List.replicate (R - (binDigits x).length) '0' ++ binDigits x
      = (List.range R).map (fun i => if x.testBit (R - 1 - i) then '1' else '0') := by
  intro R
  induction R with
  | zero => intro h; omega
  | succ R ih =>
    intro _ x hx
    rw [bits_succ_append]
    by_cases hsm : x < 2
    · have hbd : binDigits x = [if x % 2 = 1 then '1' else '0'] := by
        rw [binDigits, if_pos hsm]
      rw [hbd, List.length_singleton]
      have hz : ∀ i, (x / 2).testBit (R - 1 - i) = false := by
        intro i
        have : x / 2 = 0 := by omega
        rw [this, Nat.zero_testBit]
      simp only [hz, Bool.false_eq_true, if_false]
      rw [List.map_const' (List.range R) '0', List.length_range]
      rfl
    · have hbd : binDigits x = binDigits (x / 2) ++ [if x % 2 = 1 then '1' else '0'] := by
        rw [binDigits, if_neg hsm]
      have hR : 1 ≤ R := by
        by_contra hR0
        have : R = 0 := by omega
        subst this
        omega
      have hx2 : x / 2 < 2 ^ R := by
        rw [pow_succ] at hx
        omega
      rw [hbd, ← ih hR (x / 2) hx2, List.length_append, List.length_singleton,
        ← List.append_assoc]
      have : R + 1 - ((binDigits (x / 2)).length + 1) = R - (binDigits (x / 2)).length := by
        omega
      rw [this]

theorem pyLabel_eq (R x : Nat) (hR : 1 ≤ R) (hx : x < 2 ^ R) :
    pyLabel R x = "|" ++ String.mk ((List.range R).map
      (fun i => if x.testBit (R - 1 - i) then '1' else '0')) ++ ">" := by
  rw [pyLabel, pad_binDigits_eq R hR x hx]

theorem flatten_length_two : ∀ (l : List (List Nat)), (∀ x ∈ l, x.length = 2) →
    l.flatten.length = 2 * l.length := by
  intro l
  induction l with
  | nil => intro _; rfl
  | cons x xs ih =>
    intro h
    rw [List.flatten_cons, List.length_append, h x (List.mem_cons_self _ _),
      ih (fun y hy => h y (List.mem_cons_of_mem _ hy)), List.length_cons]
    ring

theorem flatten_getD_two : ∀ (l : List (List Nat)), (∀ x ∈ l, x.length = 2) →
    ∀ k, k < l.length → ∀ b, b < 2 →
      l.flatten.getD (2 * k + b) 0 = (l.getD k []).getD b 0 := by
  intro l
  induction l with
  | nil => intro _ k hk; simp at hk
  | cons x xs ih =>
    intro h k hk b hb
    rw [List.flatten_cons]
    cases k with
    | zero =>
      rw [Nat.mul_zero, Nat.zero_add,
        List.getD_append _ _ _ _ (by rw [h x (List.mem_cons_self _ _)]; exact hb)]
      rfl
    | succ k =>
      have hidx : 2 * (k + 1) + b = x.length + (2 * k + b) := by
        rw [h x (List.mem_cons_self _ _)]
        ring
      rw [hidx, List.getD_append_right _ _ _ _ (Nat.le_add_right _ _), Nat.add_sub_cancel_left,
        ih (fun y hy => h y (List.mem_cons_of_mem _ hy)) k (by simpa using hk) b hb]
      rfl

theorem exists_testBit_ne (R i j : Nat) (hi : i < 2 ^ R) (hj : j < 2 ^ R) (hne : i ≠ j) :
    ∃ t, t < R ∧ i.testBit t ≠ j.testBit t := by
  by_contra h
  push_neg at h
  apply hne
  apply Nat.eq_of_testBit_eq
  intro t
  rcases Nat.lt_or_ge t R with hlt | hge
  · exact h t hlt
  · have h2 : (2 : Nat) ^ R ≤ 2 ^ t := Nat.pow_le_pow_right (by norm_num) hge
    rw [Nat.testBit_lt_two_pow (lt_of_lt_of_le hi h2),
      Nat.testBit_lt_two_pow (lt_of_lt_of_le hj h2)]

theorem dictSet_fresh {κ α : Type} [DecidableEq κ] (d : List (κ × α)) (k : κ) (v : α)
    (h : ∀ kv ∈ d, kv.1 ≠ k) : dictSet d k v = d ++ [(k, v)] := by
  rw [dictSet, if_neg]
  simp only [List.any_eq_true, decide_eq_true_eq, not_exists, not_and]
  exact fun kv hkv => h kv hkv

theorem foldl_dictSet_eq_map {β κ α : Type} [DecidableEq κ] (key : β → κ) (val : β → α) :
    ∀ (L : List β) (acc : List (κ × α)),
      (L.map key).Nodup → (∀ kv ∈ acc, ∀ b ∈ L, kv.1 ≠ key b) →
      L.foldl (fun out b => dictSet out (key b) (val b)) acc
        = acc ++ L.map (fun b => (key b, val b)) := by
  intro L
  induction L with
  | nil => intro acc _ _; simp
  | cons b L' ih =>
    intro acc hnd hacc
    simp only [List.map_cons, List.nodup_cons] at hnd
    rw [List.foldl_cons,
      dictSet_fresh acc (key b) (val b) (fun kv hkv => hacc kv hkv b (List.mem_cons_self _ _)),
      ih (acc ++ [(key b, val b)]) hnd.2 ?_, List.append_assoc, List.map_cons,
      List.singleton_append]
    intro kv hkv b' hb'
    rcases List.mem_append.mp hkv with hkv' | hkv'
    · exact hacc kv hkv' b' (List.mem_cons_of_mem _ hb')
    · have hkvb : kv = (key b, val b) := by simpa using hkv'
      rw [hkvb]
      intro hcon
      apply hnd.1
      have : key b = key b' := hcon
      rw [this]
      exact List.mem_map_of_mem key hb'

theorem basicOutState_forall_two (phs : List Photon) (st : List (List Nat))
    (hid : ∀ ph ∈ phs, ph.id < phs.length)
    (hinj : (phs.map Photon.id).Nodup)
    (htri : ∀ ph ∈ phs, ph.type = PhotonType.READOUT ∨ ph.type = PhotonType.COMPUTE
      ∨ ph.type = PhotonType.WITNESS)
    (hstlen : st.length = (phs.filter (fun ph => ph.type = PhotonType.READOUT)).length)
    (hst : ∀ b ∈ st, b.length = 2) :
    ∀ x ∈ basicOutState phs st, x.length = 2 := by
  intro x hx
  obtain ⟨k, hk, hkx⟩ := List.mem_iff_getElem.mp hx
  have hk' : k < phs.length := by rwa [basicOutState_length] at hk
  obtain ⟨ph, hph, hpid⟩ := ids_cover phs hid hinj k hk'
  have hgd : (basicOutState phs st).getD k [] = x := by
    rw [List.getD_eq_getElem _ _ hk, hkx]
  rcases htri ph hph with hRO | hCW
  · have hmem : ph ∈ phs.filter (fun ph' => ph'.type = PhotonType.READOUT) :=
      List.mem_filter.mpr ⟨hph, by simp [hRO]⟩
    obtain ⟨i, hi, hie⟩ := List.mem_iff_getElem.mp hmem
    have hie' : (phs.filter (fun ph' => ph'.type = PhotonType.READOUT)).getD i default = ph := by
      rw [List.getD_eq_getElem _ _ hi, hie]
    have := basicOutState_getD_readout phs st hid hinj i hi
    rw [hie', hpid, hgd] at this
    rw [this]
    have hilt : i < st.length := by rw [hstlen]; exact hi
    rw [List.getD_eq_getElem _ _ hilt]
    exact hst _ (List.getElem_mem hilt)
  · have := basicOutState_getD_nonreadout phs st hid hinj ph hph
      (by rcases hCW with h | h; exact Or.inl h; exact Or.inr h)
    rw [hpid, hgd] at this
    rw [this]
    rfl

theorem getD_map_range {α : Type} (R p : Nat) (f : Nat → α) (d : α) (hp : p < R) :
    ((List.range R).map f).getD p d = f p := by
  rw [List.getD_eq_getElem _ _ (by simpa using hp), List.getElem_map, List.getElem_range]

theorem C4keys_nodup (phs : List Photon)
    (hid : ∀ ph ∈ phs, ph.id < phs.length)
    (hinj : (phs.map Photon.id).Nodup)
    (htri : ∀ ph ∈ phs, ph.type = PhotonType.READOUT ∨ ph.type = PhotonType.COMPUTE
      ∨ ph.type = PhotonType.WITNESS) :
    (((pyProduct (phs.filter (fun ph => ph.type = PhotonType.READOUT)).length).enum).map
      (fun xst => (basicOutState phs xst.2).flatten)).Nodup := by
  apply nodup_of_getElem_inj
  intro i j hi hj hij
  by_contra hne
  rw [List.length_map, List.enum_length, pyProduct_length] at hi hj
  simp only [List.getElem_map, List.getElem_enum] at hij
  have hip : i < (pyProduct (phs.filter (fun ph => ph.type = PhotonType.READOUT)).length).length :=
    by rw [pyProduct_length]; exact hi
  have hjp : j < (pyProduct (phs.filter (fun ph => ph.type = PhotonType.READOUT)).length).length :=
    by rw [pyProduct_length]; exact hj
  have hij' : (basicOutState phs
        ((pyProduct (phs.filter (fun ph => ph.type = PhotonType.READOUT)).length).getD
          i [])).flatten
      = (basicOutState phs
        ((pyProduct (phs.filter (fun ph => ph.type = PhotonType.READOUT)).length).getD
          j [])).flatten := by
    rw [List.getD_eq_getElem _ _ hip, List.getD_eq_getElem _ _ hjp]
    exact hij
  obtain ⟨t, htR, htne⟩ :=
    exists_testBit_ne (phs.filter (fun ph => ph.type = PhotonType.READOUT)).length i j hi hj hne
  have hp : (phs.filter (fun ph => ph.type = PhotonType.READOUT)).length - 1 - t
      < (phs.filter (fun ph => ph.type = PhotonType.READOUT)).length := by omega
  have hRt : (phs.filter (fun ph => ph.type = PhotonType.READOUT)).length - 1
      - ((phs.filter (fun ph => ph.type = PhotonType.READOUT)).length - 1 - t) = t := by omega
  have htwo : ∀ x, x < 2 ^ (phs.filter (fun ph => ph.type = PhotonType.READOUT)).length →
      (∀ y ∈ basicOutState phs
        ((pyProduct (phs.filter (fun ph => ph.type = PhotonType.READOUT)).length).getD x []),
        y.length = 2) := by
    intro x hx
    have hxp : x <
        (pyProduct (phs.filter (fun ph => ph.type = PhotonType.READOUT)).length).length := by
      rw [pyProduct_length]; exact hx
    obtain ⟨hlen, hmem⟩ :=
      pyProduct_mem (phs.filter (fun ph => ph.type = PhotonType.READOUT)).length _
        (getD_mem _ x hxp [])
    exact basicOutState_forall_two phs _ hid hinj htri hlen
      (fun b hb => by rcases hmem b hb with rfl | rfl <;> rfl)
  have hridlt : ∀ x, x < 2 ^ (phs.filter (fun ph => ph.type = PhotonType.READOUT)).length →
      ((phs.filter (fun ph => ph.type = PhotonType.READOUT)).getD
          ((phs.filter (fun ph => ph.type = PhotonType.READOUT)).length - 1 - t) default).id
        < (basicOutState phs
          ((pyProduct (phs.filter (fun ph => ph.type = PhotonType.READOUT)).length).getD
            x [])).length := by
    intro x hx
    rw [basicOutState_length]
    exact hid _ ((List.mem_filter.mp (getD_mem _ _ hp default)).1)
  have hchain : ((if i.testBit t then ([1, 0] : List Nat) else [0, 1]).getD 0 0)
      = ((if j.testBit t then ([1, 0] : List Nat) else [0, 1]).getD 0 0) := by
    rw [← hRt, ← getD_map_range (phs.filter (fun ph => ph.type = PhotonType.READOUT)).length
        ((phs.filter (fun ph => ph.type = PhotonType.READOUT)).length - 1 - t)
        (fun q => if i.testBit
          ((phs.filter (fun ph => ph.type = PhotonType.READOUT)).length - 1 - q)
          then ([1, 0] : List Nat) else [0, 1]) [] hp,
      ← getD_map_range (phs.filter (fun ph => ph.type = PhotonType.READOUT)).length
        ((phs.filter (fun ph => ph.type = PhotonType.READOUT)).length - 1 - t)
        (fun q => if j.testBit
          ((phs.filter (fun ph => ph.type = PhotonType.READOUT)).length - 1 - q)
          then ([1, 0] : List Nat) else [0, 1]) [] hp,
      ← pyProduct_getD (phs.filter (fun ph => ph.type = PhotonType.READOUT)).length i hi,
      ← pyProduct_getD (phs.filter (fun ph => ph.type = PhotonType.READOUT)).length j hj,
      ← basicOutState_getD_readout phs _ hid hinj _ hp,
      ← basicOutState_getD_readout phs _ hid hinj _ hp,
      ← flatten_getD_two _ (htwo i hi) _ (hridlt i hi) 0 (by norm_num),
      ← flatten_getD_two _ (htwo j hj) _ (hridlt j hj) 0 (by norm_num),
      hij']
  cases hbi : i.testBit t <;> cases hbj : j.testBit t <;>
    rw [hbi, hbj] at hchain htne <;> simp at hchain htne

/-- The dual-rail mode pair of photon `p` inside a flattened outcome key:
modes `2p` and `2p+1`. -/
def slotPair (key : List Nat) (p : Nat) : List Nat :=
  [key.getD (2 * p) 0, key.getD (2 * p + 1) 0]

/-- What claim C4 asserts of `set_output_states` (with the label conjunct scoped
to at least one readout photon, see `C4_label_counterexample`): exactly `2^R`
entries; entry `j`'s key is a full-length outcome in which readout `i`'s mode
pair is `[1,0]` exactly when bit `R-1-i` of `j` is set (big-endian) and `[0,1]`
otherwise, every COMPUTE and WITNESS photon's mode pair is pinned to `[0,1]`,
and entry `j`'s value is the `R`-digit big-endian binary label of `j`. -/
def C4Concl (phs : List Photon) : Prop :=
  (set_output_states phs).length
      = 2 ^ (phs.filter (fun ph => ph.type = PhotonType.READOUT)).length
  ∧ ∀ j < 2 ^ (phs.filter (fun ph => ph.type = PhotonType.READOUT)).length,
      ((set_output_states phs).getD j ([], "")).1.length = 2 * phs.length
      ∧ (∀ i < (phs.filter (fun ph => ph.type = PhotonType.READOUT)).length,
          slotPair ((set_output_states phs).getD j ([], "")).1
              ((phs.filter (fun ph => ph.type = PhotonType.READOUT)).getD i default).id
            = if j.testBit
                ((phs.filter (fun ph => ph.type = PhotonType.READOUT)).length - 1 - i)
              then [1, 0] else [0, 1])
      ∧ (∀ ph ∈ phs, (ph.type = PhotonType.COMPUTE ∨ ph.type = PhotonType.WITNESS) →
          slotPair ((set_output_states phs).getD j ([], "")).1 ph.id = [0, 1])
      ∧ (1 ≤ (phs.filter (fun ph => ph.type = PhotonType.READOUT)).length →
          ((set_output_states phs).getD j ([], "")).2
            = "|" ++ String.mk ((List.range
                  (phs.filter (fun ph => ph.type = PhotonType.READOUT)).length).map
                (fun i => if j.testBit
                    ((phs.filter (fun ph => ph.type = PhotonType.READOUT)).length - 1 - i)
                  then '1' else '0')) ++ ">")

/-- **C4, counterexample to the unscoped label conjunct**: with zero readout
photons (`R = 0`) the Python format `f"|\x7bx:0\x7bR\x7db\x7d>"` still prints at
least one digit, so the single entry's label is `"|0>"` and not the empty
0-digit label `"|>"` that an `R`-bit big-endian rendering of the index
requires. -/
theorem C4_label_counterexample :
    ((set_output_states [⟨0, PhotonType.COMPUTE, 0, (1/4, 1/8)⟩]).getD 0 ([], "")).2 = "|0>"
    ∧ ((set_output_states [⟨0, PhotonType.COMPUTE, 0, (1/4, 1/8)⟩]).getD 0 ([], "")).2
      ≠ "|" ++ String.mk ((List.range
            (([⟨0, PhotonType.COMPUTE, 0, (1/4, 1/8)⟩] : List Photon).filter
              (fun ph => ph.type = PhotonType.READOUT)).length).map
          (fun i => if Nat.testBit 0
              ((([⟨0, PhotonType.COMPUTE, 0, (1/4, 1/8)⟩] : List Photon).filter
                (fun ph => ph.type = PhotonType.READOUT)).length - 1 - i)
            then '1' else '0')) ++ ">" := by
  have hfe : ([⟨0, PhotonType.COMPUTE, 0, (1/4, 1/8)⟩] : List Photon).filter
      (fun ph => ph.type = PhotonType.READOUT) = [] := rfl
  have hlab : ((set_output_states [⟨0, PhotonType.COMPUTE, 0, (1/4, 1/8)⟩]).getD
      0 ([], "")).2 = "|0>" := by
    rw [set_output_states, hfe]
    simp only [List.length_nil]
    rw [show pyProduct 0 = [[]] from rfl]
    rw [show ([[]] : List (List (List Nat))).enum = [(0, [])] from rfl]
    rw [List.foldl_cons, List.foldl_nil]
    rw [show dictSet []
        (basicOutState [⟨0, PhotonType.COMPUTE, 0, (1/4, 1/8)⟩] []).flatten (pyLabel 0 0)
      = [((basicOutState [⟨0, PhotonType.COMPUTE, 0, (1/4, 1/8)⟩] []).flatten,
          pyLabel 0 0)] from rfl]
    rw [List.getD_cons_zero]
    show pyLabel 0 0 = "|0>"
    rw [pyLabel, binDigits]
    rfl
  refine ⟨hlab, ?_⟩
  rw [hlab, hfe]
  simp only [List.length_nil, List.range_zero, List.map_nil]
  decide

/-- **C4** (amended: the label conjunct is scoped to experiments with at least
one readout photon, see `C4_label_counterexample` for the `R = 0` boundary).
For photon lists with dense, pairwise-distinct ids and
READOUT/COMPUTE/WITNESS roles, `set_output_states` enumerates exactly the
`2^R` readout basis assignments in big-endian order: there are `2^R` entries;
entry `j`'s key gives readout `i` the mode pair `[1,0]` exactly when bit
`R-1-i` of `j` is set and `[0,1]` otherwise, and pins every COMPUTE and
WITNESS photon's mode pair to the reference `[0,1]`; and (for `R ≥ 1`) entry
`j`'s value is the `R`-digit big-endian binary label of `j`. -/
theorem C4_set_output_states (phs : List Photon)
    (hid : ∀ ph ∈ phs, ph.id < phs.length)
    (hinj : (phs.map Photon.id).Nodup)
    (htri : ∀ ph ∈ phs, ph.type = PhotonType.READOUT ∨ ph.type = PhotonType.COMPUTE
      ∨ ph.type = PhotonType.WITNESS) :
    C4Concl phs := by
  have hsos : set_output_states phs
      = ((pyProduct (phs.filter (fun ph => ph.type = PhotonType.READOUT)).length).enum).map
          (fun xst => ((basicOutState phs xst.2).flatten,
            pyLabel (phs.filter (fun ph => ph.type = PhotonType.READOUT)).length xst.1)) := by
    rw [set_output_states, foldl_dictSet_eq_map
      (fun xst : Nat × List (List Nat) => (basicOutState phs xst.2).flatten)
      (fun xst : Nat × List (List Nat) =>
        pyLabel (phs.filter (fun ph => ph.type = PhotonType.READOUT)).length xst.1)
      ((pyProduct (phs.filter (fun ph => ph.type = PhotonType.READOUT)).length).enum) []
      (C4keys_nodup phs hid hinj htri) (fun kv hkv => nomatch hkv), List.nil_append]
  constructor
  · rw [hsos, List.length_map, List.enum_length, pyProduct_length]
  · intro j hj
    have hjp : j <
        (pyProduct (phs.filter (fun ph => ph.type = PhotonType.READOUT)).length).length := by
      rw [pyProduct_length]; exact hj
    have hj' : j <
        (((pyProduct (phs.filter (fun ph => ph.type = PhotonType.READOUT)).length).enum).map
          (fun xst => ((basicOutState phs xst.2).flatten,
            pyLabel (phs.filter
              (fun ph => ph.type = PhotonType.READOUT)).length xst.1))).length := by
      rw [List.length_map, List.enum_length, pyProduct_length]; exact hj
    have hout : (set_output_states phs).getD j ([], "")
        = ((basicOutState phs
              ((pyProduct (phs.filter
                (fun ph => ph.type = PhotonType.READOUT)).length).getD j [])).flatten,
            pyLabel (phs.filter (fun ph => ph.type = PhotonType.READOUT)).length j) := by
      rw [hsos, List.getD_eq_getElem _ _ hj', List.getElem_map, List.getElem_enum,
        List.getD_eq_getElem _ _ hjp]
    have hfst : ((set_output_states phs).getD j ([], "")).1
        = (basicOutState phs
            ((pyProduct (phs.filter
              (fun ph => ph.type = PhotonType.READOUT)).length).getD j [])).flatten := by
      rw [hout]
    have hsnd : ((set_output_states phs).getD j ([], "")).2
        = pyLabel (phs.filter (fun ph => ph.type = PhotonType.READOUT)).length j := by
      rw [hout]
    obtain ⟨hlenj, hmemj⟩ :=
      pyProduct_mem (phs.filter (fun ph => ph.type = PhotonType.READOUT)).length _
        (getD_mem _ j hjp ([] : List (List Nat)))
    have htwoj := basicOutState_forall_two phs _ hid hinj htri hlenj
      (fun b hb => by rcases hmemj b hb with rfl | rfl <;> rfl)
    refine ⟨?_, ?_, ?_, ?_⟩
    · rw [hfst, flatten_length_two _ htwoj, basicOutState_length]
    · intro i hiR
      have hridlt : ((phs.filter
            (fun ph => ph.type = PhotonType.READOUT)).getD i default).id
          < (basicOutState phs
            ((pyProduct (phs.filter
              (fun ph => ph.type = PhotonType.READOUT)).length).getD j [])).length := by
        rw [basicOutState_length]
        exact hid _ (List.mem_filter.mp (getD_mem _ i hiR default)).1
      have e0 := flatten_getD_two _ htwoj _ hridlt 0 (by norm_num)
      have e1 := flatten_getD_two _ htwoj _ hridlt 1 (by norm_num)
      rw [Nat.add_zero] at e0
      rw [slotPair, hfst, e0, e1,
        basicOutState_getD_readout phs _ hid hinj i hiR,
        pyProduct_getD (phs.filter (fun ph => ph.type = PhotonType.READOUT)).length j hj,
        getD_map_range (phs.filter (fun ph => ph.type = PhotonType.READOUT)).length i _ [] hiR]
      cases htb : j.testBit
          ((phs.filter (fun ph => ph.type = PhotonType.READOUT)).length - 1 - i) <;>
        simp
    · intro ph hph hCW
      have hridlt : ph.id < (basicOutState phs
          ((pyProduct (phs.filter
            (fun ph' => ph'.type = PhotonType.READOUT)).length).getD j [])).length := by
        rw [basicOutState_length]
        exact hid ph hph
      have e0 := flatten_getD_two _ htwoj _ hridlt 0 (by norm_num)
      have e1 := flatten_getD_two _ htwoj _ hridlt 1 (by norm_num)
      rw [Nat.add_zero] at e0
      rw [slotPair, hfst, e0, e1, basicOutState_getD_nonreadout phs _ hid hinj ph hph hCW]
      rfl
    · intro hR1
      rw [hsnd, pyLabel_eq (phs.filter (fun ph => ph.type = PhotonType.READOUT)).length j hR1 hj]

/-- Witness for `C4_set_output_states`: a three-photon experiment with one
readout, one witness and one compute photon. -/
theorem C4_set_output_states_witness :
    C4Concl [⟨0, PhotonType.READOUT, 0, (1/4, 1/8)⟩, ⟨1, PhotonType.WITNESS, 0, (1/4, 1/8)⟩,
      ⟨2, PhotonType.COMPUTE, 1, (1/4, 1/8)⟩] :=
  C4_set_output_states _ (by decide) (by decide) (by decide)


/-! ## Claim C2: the Clifford correction tables

Both tables are interpreted exactly over the cyclotomic field of eighth roots
of unity: every angle appearing in either table is a multiple of pi/4 once
wave-plate axes are doubled, so all component matrices have entries there.
The component conventions are Perceval's (see `compU`). -/

/-- An element `a + b·ζ + c·ζ² + d·ζ³` of the cyclotomic field `ℚ(ζ)`,
`ζ = e^{iπ/4}` (so `ζ⁴ = -1` and `ζ² = i`): every matrix entry arising from the
two correction tables lives in this field, so all computations are exact. -/
structure Zeta8 where
  a : ℚ
  b : ℚ
  c : ℚ
  d : ℚ
  deriving DecidableEq, Repr, Inhabited

namespace Zeta8

instance : Zero Zeta8 := ⟨⟨0, 0, 0, 0⟩⟩
instance : One Zeta8 := ⟨⟨1, 0, 0, 0⟩⟩
instance : Add Zeta8 := ⟨fun x y => ⟨x.a + y.a, x.b + y.b, x.c + y.c, x.d + y.d⟩⟩
instance : Neg Zeta8 := ⟨fun x => ⟨-x.a, -x.b, -x.c, -x.d⟩⟩
instance : Mul Zeta8 :=
  ⟨fun x y =>
    ⟨x.a * y.a - x.b * y.d - x.c * y.c - x.d * y.b,
     x.a * y.b + x.b * y.a - x.c * y.d - x.d * y.c,
     x.a * y.c + x.b * y.b + x.c * y.a - x.d * y.d,
     x.a * y.d + x.b * y.c + x.c * y.b + x.d * y.a⟩⟩

/-- The imaginary unit `i = ζ²`. -/
def im : Zeta8 := ⟨0, 0, 1, 0⟩

/-- Scalar multiplication by a rational. -/
def smul (q : ℚ) (x : Zeta8) : Zeta8 := ⟨q * x.a, q * x.b, q * x.c, q * x.d⟩

/-- Complex conjugation (`ζ ↦ ζ⁻¹ = -ζ³`). -/
def conj (x : Zeta8) : Zeta8 := ⟨x.a, -x.d, -x.c, -x.b⟩

@[simp] theorem mk_add_mk (a b c d e f g h : ℚ) :
    (⟨a, b, c, d⟩ + ⟨e, f, g, h⟩ : Zeta8) = ⟨a + e, b + f, c + g, d + h⟩ := rfl
@[simp] theorem mk_mul_mk (a b c d e f g h : ℚ) :
    (⟨a, b, c, d⟩ * ⟨e, f, g, h⟩ : Zeta8) =
      ⟨a * e - b * h - c * g - d * f, a * f + b * e - c * h - d * g,
       a * g + b * f + c * e - d * h, a * h + b * g + c * f + d * e⟩ := rfl
@[simp] theorem neg_mk (a b c d : ℚ) : (-(⟨a, b, c, d⟩ : Zeta8)) = ⟨-a, -b, -c, -d⟩ := rfl
@[simp] theorem smul_mk (q a b c d : ℚ) :
    smul q ⟨a, b, c, d⟩ = ⟨q * a, q * b, q * c, q * d⟩ := rfl
@[simp] theorem conj_mk (a b c d : ℚ) : conj ⟨a, b, c, d⟩ = ⟨a, -d, -c, -b⟩ := rfl
@[simp] theorem zero_def : (0 : Zeta8) = ⟨0, 0, 0, 0⟩ := rfl
@[simp] theorem one_def : (1 : Zeta8) = ⟨1, 0, 0, 0⟩ := rfl
@[simp] theorem im_def : im = ⟨0, 0, 1, 0⟩ := rfl

end Zeta8

/-- The power `ζ^k` for `k ∈ ℤ` (period 8). -/
def zpow8 (k : ℤ) : Zeta8 :=
  if k % 8 = 0 then ⟨1, 0, 0, 0⟩
  else if k % 8 = 1 then ⟨0, 1, 0, 0⟩
  else if k % 8 = 2 then ⟨0, 0, 1, 0⟩
  else if k % 8 = 3 then ⟨0, 0, 0, 1⟩
  else if k % 8 = 4 then ⟨-1, 0, 0, 0⟩
  else if k % 8 = 5 then ⟨0, -1, 0, 0⟩
  else if k % 8 = 6 then ⟨0, 0, -1, 0⟩
  else ⟨0, 0, 0, -1⟩

/-- The value `e^{iπq}` for an angle `q` given in fractions of π; every angle in the two
correction tables is a multiple of `π/4`, i.e. `4q ∈ ℤ`, and then
`e^{iπq} = ζ^{4q}`. -/
def expPi (q : ℚ) : Zeta8 := zpow8 (4 * q).num

/-- The value `cos(πq)` via the Euler formula. -/
def cosPi (q : ℚ) : Zeta8 := Zeta8.smul (1/2) (expPi q + expPi (-q))

/-- The value `sin(πq)` via the Euler formula (`1/(2i) = -i/2`). -/
def sinPi (q : ℚ) : Zeta8 :=
  Zeta8.smul (1/2) ((expPi q + -(expPi (-q))) * (-Zeta8.im))

/-- A 2×2 matrix over `ℚ(ζ)`, row-major `[[a, b], [c, d]]`: the Jones matrix of
a one-mode polarization component, or the 2-mode matrix of a rail component. -/
structure M2 where
  a : Zeta8
  b : Zeta8
  c : Zeta8
  d : Zeta8
  deriving DecidableEq, Repr, Inhabited

namespace M2

instance : One M2 := ⟨⟨1, 0, 0, 1⟩⟩
instance : Mul M2 :=
  ⟨fun X Y => ⟨X.a * Y.a + X.b * Y.c, X.a * Y.b + X.b * Y.d,
               X.c * Y.a + X.d * Y.c, X.c * Y.b + X.d * Y.d⟩⟩

/-- Conjugate transpose. -/
def adjoint (X : M2) : M2 := ⟨X.a.conj, X.c.conj, X.b.conj, X.d.conj⟩

/-- Multiplication by a scalar (used for global phases). -/
def phaseMul (u : Zeta8) (X : M2) : M2 := ⟨u * X.a, u * X.b, u * X.c, u * X.d⟩

@[simp] theorem mkM_mul_mkM (a b c d e f g h : Zeta8) :
    (⟨a, b, c, d⟩ * ⟨e, f, g, h⟩ : M2) =
      ⟨a * e + b * g, a * f + b * h, c * e + d * g, c * f + d * h⟩ := rfl
@[simp] theorem oneM_def : (1 : M2) = ⟨1, 0, 0, 1⟩ := rfl
@[simp] theorem adjoint_mk (a b c d : Zeta8) :
    adjoint ⟨a, b, c, d⟩ = ⟨a.conj, c.conj, b.conj, d.conj⟩ := rfl
@[simp] theorem phaseMul_mk (u a b c d : Zeta8) :
    phaseMul u ⟨a, b, c, d⟩ = ⟨u * a, u * b, u * c, u * d⟩ := rfl

end M2

/-- The Jones matrix of a Perceval wave plate `WP(δ, ξ)` (retardation `2δ`,
axis angle `ξ`, both in fractions of π):
`[[cos δ + i sin δ cos 2ξ, i sin δ sin 2ξ], [i sin δ sin 2ξ, cos δ - i sin δ cos 2ξ]]`. -/
def wpU (delta xsi : ℚ) : M2 :=
  ⟨cosPi delta + Zeta8.im * sinPi delta * cosPi (2 * xsi),
   Zeta8.im * sinPi delta * sinPi (2 * xsi),
   Zeta8.im * sinPi delta * sinPi (2 * xsi),
   cosPi delta + -(Zeta8.im * sinPi delta * cosPi (2 * xsi))⟩

/-- The 2×2 matrix of one component, in Perceval's conventions: a wave plate is
`wpU` (an `HWP`/`QWP` is a `WP` with `δ = π/2` resp. `π/4`), a phase shifter
multiplies the mode by `e^{iφ}`, and a beam splitter in the default `Rx`
convention is `diag(e^{iφ_tr}, e^{iφ_br}) · [[cos θ/2, i sin θ/2], [i sin θ/2,
cos θ/2]] · diag(e^{iφ_tl}, e^{iφ_bl})`.  `PERM`/`PBS` do not occur in the
correction tables and are mapped to the identity. -/
def compU : Atomic → M2
  | .WP delta xsi => wpU delta xsi
  | .HWP xsi => wpU (1/2) xsi
  | .QWP xsi => wpU (1/4) xsi
  | .PS phi => ⟨expPi phi, 0, 0, expPi phi⟩
  | .BS theta tl bl tr br =>
    (⟨expPi tr, 0, 0, expPi br⟩ : M2)
      * ⟨cosPi (theta / 2), Zeta8.im * sinPi (theta / 2),
         Zeta8.im * sinPi (theta / 2), cosPi (theta / 2)⟩
      * ⟨expPi tl, 0, 0, expPi bl⟩
  | _ => 1

/-- The unitary of a component sequence: Perceval composes components added in
sequence by multiplying each new component's matrix on the left. -/
def seqU (l : List Atomic) : M2 := l.foldl (fun U a => compU a * U) 1

/-- The unitary of correction index `i` in the polarization encoding. -/
def polarU (i : Nat) : M2 := seqU (CLIFFORD_TO_PERCEVAL_POLAR.getD i [])

/-- The unitary of correction index `i` in the beam-splitter (rail) encoding. -/
def bsU (i : Nat) : M2 := seqU (CLIFFORD_TO_PERCEVAL_BS.getD i [])

def pauliX : M2 := ⟨⟨0, 0, 0, 0⟩, ⟨1, 0, 0, 0⟩, ⟨1, 0, 0, 0⟩, ⟨0, 0, 0, 0⟩⟩
def pauliZ : M2 := ⟨⟨1, 0, 0, 0⟩, ⟨0, 0, 0, 0⟩, ⟨0, 0, 0, 0⟩, ⟨-1, 0, 0, 0⟩⟩

/-- The six signed Pauli matrices `X, -X, Y, -Y, Z, -Z`. -/
def signedPaulis : List M2 :=
  [ ⟨⟨0, 0, 0, 0⟩, ⟨1, 0, 0, 0⟩, ⟨1, 0, 0, 0⟩, ⟨0, 0, 0, 0⟩⟩,
    ⟨⟨0, 0, 0, 0⟩, ⟨-1, 0, 0, 0⟩, ⟨-1, 0, 0, 0⟩, ⟨0, 0, 0, 0⟩⟩,
    ⟨⟨0, 0, 0, 0⟩, ⟨0, 0, -1, 0⟩, ⟨0, 0, 1, 0⟩, ⟨0, 0, 0, 0⟩⟩,
    ⟨⟨0, 0, 0, 0⟩, ⟨0, 0, 1, 0⟩, ⟨0, 0, -1, 0⟩, ⟨0, 0, 0, 0⟩⟩,
    ⟨⟨1, 0, 0, 0⟩, ⟨0, 0, 0, 0⟩, ⟨0, 0, 0, 0⟩, ⟨-1, 0, 0, 0⟩⟩,
    ⟨⟨-1, 0, 0, 0⟩, ⟨0, 0, 0, 0⟩, ⟨0, 0, 0, 0⟩, ⟨1, 0, 0, 0⟩⟩ ]

def pauliOf (k : Nat) : M2 := signedPaulis.getD k 1

/-- Predicate: `U` is (a phase representative of) a single-qubit Clifford gate: conjugation
by `U` sends `X` and `Z` to signed Paulis. -/
def isCliffordAction (U : M2) : Prop :=
  U * pauliX * M2.adjoint U ∈ signedPaulis ∧ U * pauliZ * M2.adjoint U ∈ signedPaulis

/-- Predicate: `V` equals `U` up to a global phase (a unit scalar of `ℚ(ζ)`). -/
def phaseEq (U V : M2) : Prop :=
  ∃ u : Zeta8, u * Zeta8.conj u = 1 ∧ V = M2.phaseMul u U

/-- Modelled from the spec: the reference single-qubit Clifford unitaries at the
indices the given sources pin down — the table indexes `graphix.clifford`
(absent from the given sources), whose documented generator convention the
`CLIFFORD_CONJ` docstring fixes at `4`/`5` = `S`/`S†` and the spec fixes at
`0` = identity; the customary graphix order of the remaining generators is
`I, X, Y, Z, S, S†, H` (`√2/2 = (ζ - ζ³)/2`). -/
def refClifford : List M2 :=
  [ ⟨⟨1, 0, 0, 0⟩, ⟨0, 0, 0, 0⟩, ⟨0, 0, 0, 0⟩, ⟨1, 0, 0, 0⟩⟩,
    ⟨⟨0, 0, 0, 0⟩, ⟨1, 0, 0, 0⟩, ⟨1, 0, 0, 0⟩, ⟨0, 0, 0, 0⟩⟩,
    ⟨⟨0, 0, 0, 0⟩, ⟨0, 0, -1, 0⟩, ⟨0, 0, 1, 0⟩, ⟨0, 0, 0, 0⟩⟩,
    ⟨⟨1, 0, 0, 0⟩, ⟨0, 0, 0, 0⟩, ⟨0, 0, 0, 0⟩, ⟨-1, 0, 0, 0⟩⟩,
    ⟨⟨1, 0, 0, 0⟩, ⟨0, 0, 0, 0⟩, ⟨0, 0, 0, 0⟩, ⟨0, 0, 1, 0⟩⟩,
    ⟨⟨1, 0, 0, 0⟩, ⟨0, 0, 0, 0⟩, ⟨0, 0, 0, 0⟩, ⟨0, 0, -1, 0⟩⟩,
    ⟨⟨0, 1/2, 0, -(1/2)⟩, ⟨0, 1/2, 0, -(1/2)⟩,
     ⟨0, 1/2, 0, -(1/2)⟩, ⟨0, -(1/2), 0, 1/2⟩⟩ ]

theorem polarU_val_0 : polarU 0 = ⟨⟨1, 0, 0, 0⟩, ⟨0, 0, 0, 0⟩, ⟨0, 0, 0, 0⟩, ⟨1, 0, 0, 0⟩⟩ := by
  simp [polarU, CLIFFORD_TO_PERCEVAL_POLAR, seqU, compU, wpU, cosPi, sinPi, expPi,
    zpow8] <;> norm_num

theorem polarU_val_1 : polarU 1 = ⟨⟨0, 0, 0, 0⟩, ⟨1, 0, 0, 0⟩, ⟨1, 0, 0, 0⟩, ⟨0, 0, 0, 0⟩⟩ := by
  simp [polarU, CLIFFORD_TO_PERCEVAL_POLAR, seqU, compU, wpU, cosPi, sinPi, expPi,
    zpow8] <;> norm_num

theorem polarU_val_2 : polarU 2 = ⟨⟨0, 0, 0, 0⟩, ⟨0, 0, -1, 0⟩, ⟨0, 0, 1, 0⟩, ⟨0, 0, 0, 0⟩⟩ := by
  simp [polarU, CLIFFORD_TO_PERCEVAL_POLAR, seqU, compU, wpU, cosPi, sinPi, expPi,
    zpow8] <;> norm_num

theorem polarU_val_3 : polarU 3 = ⟨⟨1, 0, 0, 0⟩, ⟨0, 0, 0, 0⟩, ⟨0, 0, 0, 0⟩, ⟨-1, 0, 0, 0⟩⟩ := by
  simp [polarU, CLIFFORD_TO_PERCEVAL_POLAR, seqU, compU, wpU, cosPi, sinPi, expPi,
    zpow8] <;> norm_num

theorem polarU_val_4 : polarU 4 = ⟨⟨1, 0, 0, 0⟩, ⟨0, 0, 0, 0⟩, ⟨0, 0, 0, 0⟩, ⟨0, 0, 1, 0⟩⟩ := by
  simp [polarU, CLIFFORD_TO_PERCEVAL_POLAR, seqU, compU, wpU, cosPi, sinPi, expPi,
    zpow8] <;> norm_num

theorem polarU_val_5 : polarU 5 = ⟨⟨1, 0, 0, 0⟩, ⟨0, 0, 0, 0⟩, ⟨0, 0, 0, 0⟩, ⟨0, 0, -1, 0⟩⟩ := by
  simp [polarU, CLIFFORD_TO_PERCEVAL_POLAR, seqU, compU, wpU, cosPi, sinPi, expPi,
    zpow8] <;> norm_num

theorem polarU_val_6 : polarU 6 = ⟨⟨0, 1/2, 0, -(1/2)⟩, ⟨0, 1/2, 0, -(1/2)⟩, ⟨0, 1/2, 0, -(1/2)⟩, ⟨0, -(1/2), 0, 1/2⟩⟩ := by
  simp [polarU, CLIFFORD_TO_PERCEVAL_POLAR, seqU, compU, wpU, cosPi, sinPi, expPi,
    zpow8] <;> norm_num

theorem polarU_val_7 : polarU 7 = ⟨⟨0, 1/2, 0, -(1/2)⟩, ⟨0, -(1/2), 0, -(1/2)⟩, ⟨0, -(1/2), 0, -(1/2)⟩, ⟨0, 1/2, 0, -(1/2)⟩⟩ := by
  simp [polarU, CLIFFORD_TO_PERCEVAL_POLAR, seqU, compU, wpU, cosPi, sinPi, expPi,
    zpow8] <;> norm_num

theorem polarU_val_8 : polarU 8 = ⟨⟨0, 1/2, 0, -(1/2)⟩, ⟨0, -(1/2), 0, 1/2⟩, ⟨0, 1/2, 0, -(1/2)⟩, ⟨0, 1/2, 0, -(1/2)⟩⟩ := by
  simp [polarU, CLIFFORD_TO_PERCEVAL_POLAR, seqU, compU, wpU, cosPi, sinPi, expPi,
    zpow8] <;> norm_num

theorem polarU_val_9 : polarU 9 = ⟨⟨0, 0, 0, 0⟩, ⟨0, 0, 0, -1⟩, ⟨0, -1, 0, 0⟩, ⟨0, 0, 0, 0⟩⟩ := by
  simp [polarU, CLIFFORD_TO_PERCEVAL_POLAR, seqU, compU, wpU, cosPi, sinPi, expPi,
    zpow8] <;> norm_num

theorem polarU_val_10 : polarU 10 = ⟨⟨0, 0, 0, 0⟩, ⟨0, -1, 0, 0⟩, ⟨0, 0, 0, -1⟩, ⟨0, 0, 0, 0⟩⟩ := by
  simp [polarU, CLIFFORD_TO_PERCEVAL_POLAR, seqU, compU, wpU, cosPi, sinPi, expPi,
    zpow8] <;> norm_num

theorem polarU_val_11 : polarU 11 = ⟨⟨0, 1/2, 0, -(1/2)⟩, ⟨0, -(1/2), 0, 1/2⟩, ⟨0, -(1/2), 0, 1/2⟩, ⟨0, -(1/2), 0, 1/2⟩⟩ := by
  simp [polarU, CLIFFORD_TO_PERCEVAL_POLAR, seqU, compU, wpU, cosPi, sinPi, expPi,
    zpow8] <;> norm_num

theorem polarU_val_12 : polarU 12 = ⟨⟨0, -(1/2), 0, 1/2⟩, ⟨0, -(1/2), 0, 1/2⟩, ⟨0, 1/2, 0, -(1/2)⟩, ⟨0, -(1/2), 0, 1/2⟩⟩ := by
  simp [polarU, CLIFFORD_TO_PERCEVAL_POLAR, seqU, compU, wpU, cosPi, sinPi, expPi,
    zpow8] <;> norm_num

theorem polarU_val_13 : polarU 13 = ⟨⟨0, 1/2, 0, 1/2⟩, ⟨0, -(1/2), 0, 1/2⟩, ⟨0, 1/2, 0, -(1/2)⟩, ⟨0, -(1/2), 0, -(1/2)⟩⟩ := by
  simp [polarU, CLIFFORD_TO_PERCEVAL_POLAR, seqU, compU, wpU, cosPi, sinPi, expPi,
    zpow8] <;> norm_num

theorem polarU_val_14 : polarU 14 = ⟨⟨0, 1/2, 0, 1/2⟩, ⟨0, 1/2, 0, -(1/2)⟩, ⟨0, -(1/2), 0, 1/2⟩, ⟨0, -(1/2), 0, -(1/2)⟩⟩ := by
  simp [polarU, CLIFFORD_TO_PERCEVAL_POLAR, seqU, compU, wpU, cosPi, sinPi, expPi,
    zpow8] <;> norm_num

theorem polarU_val_15 : polarU 15 = ⟨⟨0, -(1/2), 0, 1/2⟩, ⟨0, -(1/2), 0, -(1/2)⟩, ⟨0, -(1/2), 0, -(1/2)⟩, ⟨0, -(1/2), 0, 1/2⟩⟩ := by
  simp [polarU, CLIFFORD_TO_PERCEVAL_POLAR, seqU, compU, wpU, cosPi, sinPi, expPi,
    zpow8] <;> norm_num

theorem polarU_val_16 : polarU 16 = ⟨⟨-(1/2), 0, 1/2, 0⟩, ⟨1/2, 0, 1/2, 0⟩, ⟨-(1/2), 0, 1/2, 0⟩, ⟨-(1/2), 0, -(1/2), 0⟩⟩ := by
  simp [polarU, CLIFFORD_TO_PERCEVAL_POLAR, seqU, compU, wpU, cosPi, sinPi, expPi,
    zpow8] <;> norm_num

theorem polarU_val_17 : polarU 17 = ⟨⟨-(1/2), 0, 1/2, 0⟩, ⟨-(1/2), 0, -(1/2), 0⟩, ⟨1/2, 0, -(1/2), 0⟩, ⟨-(1/2), 0, -(1/2), 0⟩⟩ := by
  simp [polarU, CLIFFORD_TO_PERCEVAL_POLAR, seqU, compU, wpU, cosPi, sinPi, expPi,
    zpow8] <;> norm_num

theorem polarU_val_18 : polarU 18 = ⟨⟨1/2, 0, 1/2, 0⟩, ⟨1/2, 0, -(1/2), 0⟩, ⟨-(1/2), 0, -(1/2), 0⟩, ⟨1/2, 0, -(1/2), 0⟩⟩ := by
  simp [polarU, CLIFFORD_TO_PERCEVAL_POLAR, seqU, compU, wpU, cosPi, sinPi, expPi,
    zpow8] <;> norm_num

theorem polarU_val_19 : polarU 19 = ⟨⟨-(1/2), 0, -(1/2), 0⟩, ⟨1/2, 0, -(1/2), 0⟩, ⟨-(1/2), 0, -(1/2), 0⟩, ⟨-(1/2), 0, 1/2, 0⟩⟩ := by
  simp [polarU, CLIFFORD_TO_PERCEVAL_POLAR, seqU, compU, wpU, cosPi, sinPi, expPi,
    zpow8] <;> norm_num

theorem polarU_val_20 : polarU 20 = ⟨⟨-(1/2), 0, -(1/2), 0⟩, ⟨-(1/2), 0, -(1/2), 0⟩, ⟨1/2, 0, -(1/2), 0⟩, ⟨-(1/2), 0, 1/2, 0⟩⟩ := by
  simp [polarU, CLIFFORD_TO_PERCEVAL_POLAR, seqU, compU, wpU, cosPi, sinPi, expPi,
    zpow8] <;> norm_num

theorem polarU_val_21 : polarU 21 = ⟨⟨-(1/2), 0, 1/2, 0⟩, ⟨-(1/2), 0, 1/2, 0⟩, ⟨1/2, 0, 1/2, 0⟩, ⟨-(1/2), 0, -(1/2), 0⟩⟩ := by
  simp [polarU, CLIFFORD_TO_PERCEVAL_POLAR, seqU, compU, wpU, cosPi, sinPi, expPi,
    zpow8] <;> norm_num

theorem polarU_val_22 : polarU 22 = ⟨⟨1/2, 0, 1/2, 0⟩, ⟨-(1/2), 0, -(1/2), 0⟩, ⟨1/2, 0, -(1/2), 0⟩, ⟨1/2, 0, -(1/2), 0⟩⟩ := by
  simp [polarU, CLIFFORD_TO_PERCEVAL_POLAR, seqU, compU, wpU, cosPi, sinPi, expPi,
    zpow8] <;> norm_num

theorem polarU_val_23 : polarU 23 = ⟨⟨-(1/2), 0, 1/2, 0⟩, ⟨1/2, 0, -(1/2), 0⟩, ⟨-(1/2), 0, -(1/2), 0⟩, ⟨-(1/2), 0, -(1/2), 0⟩⟩ := by
  simp [polarU, CLIFFORD_TO_PERCEVAL_POLAR, seqU, compU, wpU, cosPi, sinPi, expPi,
    zpow8] <;> norm_num

theorem bsU_val_0 : bsU 0 = ⟨⟨1, 0, 0, 0⟩, ⟨0, 0, 0, 0⟩, ⟨0, 0, 0, 0⟩, ⟨1, 0, 0, 0⟩⟩ := by
  simp [bsU, CLIFFORD_TO_PERCEVAL_BS, seqU, compU, wpU, cosPi, sinPi, expPi,
    zpow8] <;> norm_num

theorem bsU_val_1 : bsU 1 = ⟨⟨0, 0, 0, 0⟩, ⟨1, 0, 0, 0⟩, ⟨1, 0, 0, 0⟩, ⟨0, 0, 0, 0⟩⟩ := by
  simp [bsU, CLIFFORD_TO_PERCEVAL_BS, seqU, compU, wpU, cosPi, sinPi, expPi,
    zpow8] <;> norm_num

theorem bsU_val_2 : bsU 2 = ⟨⟨0, 0, 0, 0⟩, ⟨0, 0, -1, 0⟩, ⟨0, 0, 1, 0⟩, ⟨0, 0, 0, 0⟩⟩ := by
  simp [bsU, CLIFFORD_TO_PERCEVAL_BS, seqU, compU, wpU, cosPi, sinPi, expPi,
    zpow8] <;> norm_num

theorem bsU_val_3 : bsU 3 = ⟨⟨1, 0, 0, 0⟩, ⟨0, 0, 0, 0⟩, ⟨0, 0, 0, 0⟩, ⟨-1, 0, 0, 0⟩⟩ := by
  simp [bsU, CLIFFORD_TO_PERCEVAL_BS, seqU, compU, wpU, cosPi, sinPi, expPi,
    zpow8] <;> norm_num

theorem bsU_val_4 : bsU 4 = ⟨⟨1, 0, 0, 0⟩, ⟨0, 0, 0, 0⟩, ⟨0, 0, 0, 0⟩, ⟨0, 0, 1, 0⟩⟩ := by
  simp [bsU, CLIFFORD_TO_PERCEVAL_BS, seqU, compU, wpU, cosPi, sinPi, expPi,
    zpow8] <;> norm_num

theorem bsU_val_5 : bsU 5 = ⟨⟨1, 0, 0, 0⟩, ⟨0, 0, 0, 0⟩, ⟨0, 0, 0, 0⟩, ⟨0, 0, -1, 0⟩⟩ := by
  simp [bsU, CLIFFORD_TO_PERCEVAL_BS, seqU, compU, wpU, cosPi, sinPi, expPi,
    zpow8] <;> norm_num

theorem bsU_val_6 : bsU 6 = ⟨⟨0, 1/2, 0, -(1/2)⟩, ⟨0, 1/2, 0, -(1/2)⟩, ⟨0, 1/2, 0, -(1/2)⟩, ⟨0, -(1/2), 0, 1/2⟩⟩ := by
  simp [bsU, CLIFFORD_TO_PERCEVAL_BS, seqU, compU, wpU, cosPi, sinPi, expPi,
    zpow8] <;> norm_num

theorem bsU_val_7 : bsU 7 = ⟨⟨0, 1/2, 0, -(1/2)⟩, ⟨0, -(1/2), 0, -(1/2)⟩, ⟨0, -(1/2), 0, -(1/2)⟩, ⟨0, 1/2, 0, -(1/2)⟩⟩ := by
  simp [bsU, CLIFFORD_TO_PERCEVAL_BS, seqU, compU, wpU, cosPi, sinPi, expPi,
    zpow8] <;> norm_num

theorem bsU_val_8 : bsU 8 = ⟨⟨0, 1/2, 0, -(1/2)⟩, ⟨0, -(1/2), 0, 1/2⟩, ⟨0, 1/2, 0, -(1/2)⟩, ⟨0, 1/2, 0, -(1/2)⟩⟩ := by
  simp [bsU, CLIFFORD_TO_PERCEVAL_BS, seqU, compU, wpU, cosPi, sinPi, expPi,
    zpow8] <;> norm_num

theorem bsU_val_9 : bsU 9 = ⟨⟨0, 0, 0, 0⟩, ⟨0, 0, 0, -1⟩, ⟨0, -1, 0, 0⟩, ⟨0, 0, 0, 0⟩⟩ := by
  simp [bsU, CLIFFORD_TO_PERCEVAL_BS, seqU, compU, wpU, cosPi, sinPi, expPi,
    zpow8] <;> norm_num

theorem bsU_val_10 : bsU 10 = ⟨⟨0, 0, 0, 0⟩, ⟨0, -1, 0, 0⟩, ⟨0, 0, 0, -1⟩, ⟨0, 0, 0, 0⟩⟩ := by
  simp [bsU, CLIFFORD_TO_PERCEVAL_BS, seqU, compU, wpU, cosPi, sinPi, expPi,
    zpow8] <;> norm_num

theorem bsU_val_11 : bsU 11 = ⟨⟨0, 1/2, 0, -(1/2)⟩, ⟨0, -(1/2), 0, 1/2⟩, ⟨0, -(1/2), 0, 1/2⟩, ⟨0, -(1/2), 0, 1/2⟩⟩ := by
  simp [bsU, CLIFFORD_TO_PERCEVAL_BS, seqU, compU, wpU, cosPi, sinPi, expPi,
    zpow8] <;> norm_num

theorem bsU_val_12 : bsU 12 = ⟨⟨0, -(1/2), 0, 1/2⟩, ⟨0, -(1/2), 0, 1/2⟩, ⟨0, 1/2, 0, -(1/2)⟩, ⟨0, -(1/2), 0, 1/2⟩⟩ := by
  simp [bsU, CLIFFORD_TO_PERCEVAL_BS, seqU, compU, wpU, cosPi, sinPi, expPi,
    zpow8] <;> norm_num

theorem bsU_val_13 : bsU 13 = ⟨⟨0, 1/2, 0, 1/2⟩, ⟨0, -(1/2), 0, 1/2⟩, ⟨0, 1/2, 0, -(1/2)⟩, ⟨0, -(1/2), 0, -(1/2)⟩⟩ := by
  simp [bsU, CLIFFORD_TO_PERCEVAL_BS, seqU, compU, wpU, cosPi, sinPi, expPi,
    zpow8] <;> norm_num

theorem bsU_val_14 : bsU 14 = ⟨⟨0, 1/2, 0, 1/2⟩, ⟨0, 1/2, 0, -(1/2)⟩, ⟨0, -(1/2), 0, 1/2⟩, ⟨0, -(1/2), 0, -(1/2)⟩⟩ := by
  simp [bsU, CLIFFORD_TO_PERCEVAL_BS, seqU, compU, wpU, cosPi, sinPi, expPi,
    zpow8] <;> norm_num

theorem bsU_val_15 : bsU 15 = ⟨⟨0, -(1/2), 0, 1/2⟩, ⟨0, -(1/2), 0, -(1/2)⟩, ⟨0, -(1/2), 0, -(1/2)⟩, ⟨0, -(1/2), 0, 1/2⟩⟩ := by
  simp [bsU, CLIFFORD_TO_PERCEVAL_BS, seqU, compU, wpU, cosPi, sinPi, expPi,
    zpow8] <;> norm_num

theorem bsU_val_16 : bsU 16 = ⟨⟨-(1/2), 0, 1/2, 0⟩, ⟨1/2, 0, 1/2, 0⟩, ⟨-(1/2), 0, 1/2, 0⟩, ⟨-(1/2), 0, -(1/2), 0⟩⟩ := by
  simp [bsU, CLIFFORD_TO_PERCEVAL_BS, seqU, compU, wpU, cosPi, sinPi, expPi,
    zpow8] <;> norm_num

theorem bsU_val_17 : bsU 17 = ⟨⟨-(1/2), 0, 1/2, 0⟩, ⟨-(1/2), 0, -(1/2), 0⟩, ⟨1/2, 0, -(1/2), 0⟩, ⟨-(1/2), 0, -(1/2), 0⟩⟩ := by
  simp [bsU, CLIFFORD_TO_PERCEVAL_BS, seqU, compU, wpU, cosPi, sinPi, expPi,
    zpow8] <;> norm_num

theorem bsU_val_18 : bsU 18 = ⟨⟨1/2, 0, 1/2, 0⟩, ⟨1/2, 0, -(1/2), 0⟩, ⟨-(1/2), 0, -(1/2), 0⟩, ⟨1/2, 0, -(1/2), 0⟩⟩ := by
  simp [bsU, CLIFFORD_TO_PERCEVAL_BS, seqU, compU, wpU, cosPi, sinPi, expPi,
    zpow8] <;> norm_num

theorem bsU_val_19 : bsU 19 = ⟨⟨-(1/2), 0, -(1/2), 0⟩, ⟨1/2, 0, -(1/2), 0⟩, ⟨-(1/2), 0, -(1/2), 0⟩, ⟨-(1/2), 0, 1/2, 0⟩⟩ := by
  simp [bsU, CLIFFORD_TO_PERCEVAL_BS, seqU, compU, wpU, cosPi, sinPi, expPi,
    zpow8] <;> norm_num

theorem bsU_val_20 : bsU 20 = ⟨⟨-(1/2), 0, -(1/2), 0⟩, ⟨-(1/2), 0, -(1/2), 0⟩, ⟨1/2, 0, -(1/2), 0⟩, ⟨-(1/2), 0, 1/2, 0⟩⟩ := by
  simp [bsU, CLIFFORD_TO_PERCEVAL_BS, seqU, compU, wpU, cosPi, sinPi, expPi,
    zpow8] <;> norm_num

theorem bsU_val_21 : bsU 21 = ⟨⟨-(1/2), 0, 1/2, 0⟩, ⟨-(1/2), 0, 1/2, 0⟩, ⟨1/2, 0, 1/2, 0⟩, ⟨-(1/2), 0, -(1/2), 0⟩⟩ := by
  simp [bsU, CLIFFORD_TO_PERCEVAL_BS, seqU, compU, wpU, cosPi, sinPi, expPi,
    zpow8] <;> norm_num

theorem bsU_val_22 : bsU 22 = ⟨⟨1/2, 0, 1/2, 0⟩, ⟨-(1/2), 0, -(1/2), 0⟩, ⟨1/2, 0, -(1/2), 0⟩, ⟨1/2, 0, -(1/2), 0⟩⟩ := by
  simp [bsU, CLIFFORD_TO_PERCEVAL_BS, seqU, compU, wpU, cosPi, sinPi, expPi,
    zpow8] <;> norm_num

theorem bsU_val_23 : bsU 23 = ⟨⟨-(1/2), 0, 1/2, 0⟩, ⟨1/2, 0, -(1/2), 0⟩, ⟨-(1/2), 0, -(1/2), 0⟩, ⟨-(1/2), 0, -(1/2), 0⟩⟩ := by
  simp [bsU, CLIFFORD_TO_PERCEVAL_BS, seqU, compU, wpU, cosPi, sinPi, expPi,
    zpow8] <;> norm_num

def actTable : List (Nat × Nat) :=
  [(0, 4), (0, 5), (1, 5), (1, 4), (2, 4), (3, 4), (4, 0), (0, 3), (5, 0), (3, 5), (2, 5), (5, 1), (4, 1), (1, 3), (1, 2), (0, 2), (2, 0), (2, 1), (3, 1), (3, 0), (4, 2), (4, 3), (5, 3), (5, 2)]

def conjPhases : List ℤ :=
  [0, 0, 0, 0, 0, 0, 0, 4, 4, 4, 4, 0, 4, 4, 4, 4, 0, 4, 4, 0, 0, 0, 4, 4]

theorem phaseMul_mul_left (u : Zeta8) (X Y : M2) :
    M2.phaseMul u X * Y = M2.phaseMul u (X * Y) := by
  obtain ⟨⟨a1, a2, a3, a4⟩, ⟨b1, b2, b3, b4⟩, ⟨c1, c2, c3, c4⟩, ⟨d1, d2, d3, d4⟩⟩ := X
  obtain ⟨⟨e1, e2, e3, e4⟩, ⟨f1, f2, f3, f4⟩, ⟨g1, g2, g3, g4⟩, ⟨h1, h2, h3, h4⟩⟩ := Y
  obtain ⟨u1, u2, u3, u4⟩ := u
  simp only [M2.phaseMul_mk, M2.mkM_mul_mkM, Zeta8.mk_mul_mk, Zeta8.mk_add_mk, M2.mk.injEq,
    Zeta8.mk.injEq]
  and_intros <;> ring

theorem mul_phaseMul_right (v : Zeta8) (X Y : M2) :
    X * M2.phaseMul v Y = M2.phaseMul v (X * Y) := by
  obtain ⟨⟨a1, a2, a3, a4⟩, ⟨b1, b2, b3, b4⟩, ⟨c1, c2, c3, c4⟩, ⟨d1, d2, d3, d4⟩⟩ := X
  obtain ⟨⟨e1, e2, e3, e4⟩, ⟨f1, f2, f3, f4⟩, ⟨g1, g2, g3, g4⟩, ⟨h1, h2, h3, h4⟩⟩ := Y
  obtain ⟨u1, u2, u3, u4⟩ := v
  simp only [M2.phaseMul_mk, M2.mkM_mul_mkM, Zeta8.mk_mul_mk, Zeta8.mk_add_mk, M2.mk.injEq,
    Zeta8.mk.injEq]
  and_intros <;> ring

theorem adjoint_phaseMul (u : Zeta8) (X : M2) :
    M2.adjoint (M2.phaseMul u X) = M2.phaseMul (Zeta8.conj u) (M2.adjoint X) := by
  obtain ⟨⟨a1, a2, a3, a4⟩, ⟨b1, b2, b3, b4⟩, ⟨c1, c2, c3, c4⟩, ⟨d1, d2, d3, d4⟩⟩ := X
  obtain ⟨u1, u2, u3, u4⟩ := u
  simp only [M2.phaseMul_mk, M2.adjoint_mk, Zeta8.conj_mk, Zeta8.mk_mul_mk, M2.mk.injEq,
    Zeta8.mk.injEq]
  and_intros <;> ring

theorem phaseMul_phaseMul (u v : Zeta8) (X : M2) :
    M2.phaseMul u (M2.phaseMul v X) = M2.phaseMul (u * v) X := by
  obtain ⟨⟨a1, a2, a3, a4⟩, ⟨b1, b2, b3, b4⟩, ⟨c1, c2, c3, c4⟩, ⟨d1, d2, d3, d4⟩⟩ := X
  obtain ⟨u1, u2, u3, u4⟩ := u
  obtain ⟨v1, v2, v3, v4⟩ := v
  simp only [M2.phaseMul_mk, Zeta8.mk_mul_mk, M2.mk.injEq, Zeta8.mk.injEq]
  and_intros <;> ring

theorem phaseMul_one_scalar (X : M2) : M2.phaseMul 1 X = X := by
  obtain ⟨⟨a1, a2, a3, a4⟩, ⟨b1, b2, b3, b4⟩, ⟨c1, c2, c3, c4⟩, ⟨d1, d2, d3, d4⟩⟩ := X
  simp only [Zeta8.one_def, M2.phaseMul_mk, Zeta8.mk_mul_mk, M2.mk.injEq, Zeta8.mk.injEq]
  and_intros <;> ring

theorem zconj_comm (u : Zeta8) : Zeta8.conj u * u = u * Zeta8.conj u := by
  obtain ⟨u1, u2, u3, u4⟩ := u
  simp only [Zeta8.conj_mk, Zeta8.mk_mul_mk, Zeta8.mk.injEq]
  and_intros <;> ring

theorem phaseEq_act (U V : M2) (h : phaseEq U V) (P : M2) :
    V * P * M2.adjoint V = U * P * M2.adjoint U := by
  obtain ⟨u, hu, rfl⟩ := h
  rw [phaseMul_mul_left, adjoint_phaseMul, mul_phaseMul_right, phaseMul_mul_left,
    phaseMul_phaseMul, zconj_comm, hu, phaseMul_one_scalar]

theorem zpow8_unit (k : ℤ) : zpow8 k * Zeta8.conj (zpow8 k) = 1 := by
  rw [zpow8]
  split_ifs <;> simp <;> norm_num

theorem agreeU : ∀ i < 24, bsU i = polarU i := by
  intro i hi
  interval_cases i <;>
    simp only [bsU_val_0, bsU_val_1, bsU_val_2, bsU_val_3, bsU_val_4, bsU_val_5, bsU_val_6,
      bsU_val_7, bsU_val_8, bsU_val_9, bsU_val_10, bsU_val_11, bsU_val_12, bsU_val_13,
      bsU_val_14, bsU_val_15, bsU_val_16, bsU_val_17, bsU_val_18, bsU_val_19, bsU_val_20,
      bsU_val_21, bsU_val_22, bsU_val_23, polarU_val_0, polarU_val_1, polarU_val_2,
      polarU_val_3, polarU_val_4, polarU_val_5, polarU_val_6, polarU_val_7, polarU_val_8,
      polarU_val_9, polarU_val_10, polarU_val_11, polarU_val_12, polarU_val_13, polarU_val_14,
      polarU_val_15, polarU_val_16, polarU_val_17, polarU_val_18, polarU_val_19, polarU_val_20,
      polarU_val_21, polarU_val_22, polarU_val_23]

theorem unitaryU : ∀ i < 24, M2.adjoint (polarU i) * polarU i = 1 := by
  intro i hi
  interval_cases i <;>
    simp [polarU_val_0, polarU_val_1, polarU_val_2, polarU_val_3, polarU_val_4, polarU_val_5,
      polarU_val_6, polarU_val_7, polarU_val_8, polarU_val_9, polarU_val_10, polarU_val_11,
      polarU_val_12, polarU_val_13, polarU_val_14, polarU_val_15, polarU_val_16, polarU_val_17,
      polarU_val_18, polarU_val_19, polarU_val_20, polarU_val_21, polarU_val_22,
      polarU_val_23] <;> norm_num

theorem actX_val : ∀ i < 24,
    polarU i * pauliX * M2.adjoint (polarU i) = pauliOf (actTable.getD i (0, 0)).1 := by
  intro i hi
  interval_cases i <;>
    simp [polarU_val_0, polarU_val_1, polarU_val_2, polarU_val_3, polarU_val_4, polarU_val_5,
      polarU_val_6, polarU_val_7, polarU_val_8, polarU_val_9, polarU_val_10, polarU_val_11,
      polarU_val_12, polarU_val_13, polarU_val_14, polarU_val_15, polarU_val_16, polarU_val_17,
      polarU_val_18, polarU_val_19, polarU_val_20, polarU_val_21, polarU_val_22, polarU_val_23,
      pauliX, pauliOf, actTable, signedPaulis] <;> norm_num

theorem actZ_val : ∀ i < 24,
    polarU i * pauliZ * M2.adjoint (polarU i) = pauliOf (actTable.getD i (0, 0)).2 := by
  intro i hi
  interval_cases i <;>
    simp [polarU_val_0, polarU_val_1, polarU_val_2, polarU_val_3, polarU_val_4, polarU_val_5,
      polarU_val_6, polarU_val_7, polarU_val_8, polarU_val_9, polarU_val_10, polarU_val_11,
      polarU_val_12, polarU_val_13, polarU_val_14, polarU_val_15, polarU_val_16, polarU_val_17,
      polarU_val_18, polarU_val_19, polarU_val_20, polarU_val_21, polarU_val_22, polarU_val_23,
      pauliZ, pauliOf, actTable, signedPaulis] <;> norm_num

theorem pauliOf_inj : ∀ a < 6, ∀ b < 6, pauliOf a = pauliOf b → a = b := by
  intro a ha b hb h
  interval_cases a <;> interval_cases b <;>
    simp_all [pauliOf, signedPaulis, M2.mk.injEq, Zeta8.mk.injEq] <;> norm_num at h

theorem actTable_bounds : ∀ i < 24,
    (actTable.getD i (0, 0)).1 < 6 ∧ (actTable.getD i (0, 0)).2 < 6 := by decide

theorem actTable_inj : ∀ i < 24, ∀ j < 24,
    actTable.getD i (0, 0) = actTable.getD j (0, 0) → i = j := by decide

theorem distinctU : ∀ i < 24, ∀ j < 24, phaseEq (polarU i) (polarU j) → i = j := by
  intro i hi j hj h
  have hx := phaseEq_act _ _ h pauliX
  have hz := phaseEq_act _ _ h pauliZ
  rw [actX_val i hi, actX_val j hj] at hx
  rw [actZ_val i hi, actZ_val j hj] at hz
  have h1 := pauliOf_inj _ (actTable_bounds j hj).1 _ (actTable_bounds i hi).1 hx
  have h2 := pauliOf_inj _ (actTable_bounds j hj).2 _ (actTable_bounds i hi).2 hz
  exact (actTable_inj j hj i hi (Prod.ext h1 h2)).symm

theorem cliffordU : ∀ i < 24, isCliffordAction (polarU i) := by
  intro i hi
  have hmem : ∀ k < 6, pauliOf k ∈ signedPaulis := by
    intro k hk
    exact getD_mem signedPaulis k hk 1
  exact ⟨actX_val i hi ▸ hmem _ (actTable_bounds i hi).1,
    actZ_val i hi ▸ hmem _ (actTable_bounds i hi).2⟩

theorem refU : ∀ i < 7, polarU i = refClifford.getD i 1 := by
  intro i hi
  interval_cases i <;>
    simp [polarU_val_0, polarU_val_1, polarU_val_2, polarU_val_3, polarU_val_4, polarU_val_5,
      polarU_val_6, refClifford]

theorem conjU_val : ∀ i < 24, polarU (CLIFFORD_CONJ.getD i 0)
    = M2.phaseMul (zpow8 (conjPhases.getD i 0)) (M2.adjoint (polarU i)) := by
  intro i hi
  interval_cases i <;>
    simp [polarU_val_0, polarU_val_1, polarU_val_2, polarU_val_3, polarU_val_4, polarU_val_5,
      polarU_val_6, polarU_val_7, polarU_val_8, polarU_val_9, polarU_val_10, polarU_val_11,
      polarU_val_12, polarU_val_13, polarU_val_14, polarU_val_15, polarU_val_16, polarU_val_17,
      polarU_val_18, polarU_val_19, polarU_val_20, polarU_val_21, polarU_val_22, polarU_val_23,
      CLIFFORD_CONJ, conjPhases, zpow8] <;> norm_num

def C2Concl : Prop :=
  CLIFFORD_TO_PERCEVAL_BS.length = 24 ∧ CLIFFORD_TO_PERCEVAL_POLAR.length = 24
  ∧ (∀ i < 24, bsU i = polarU i)
  ∧ (∀ i < 24, M2.adjoint (polarU i) * polarU i = 1)
  ∧ (∀ i < 24, isCliffordAction (polarU i))
  ∧ (∀ i < 24, ∀ j < 24, phaseEq (polarU i) (polarU j) → i = j)
  ∧ (∀ i < 7, polarU i = refClifford.getD i 1)
  ∧ (∀ i < 24, phaseEq (M2.adjoint (polarU i)) (polarU (CLIFFORD_CONJ.getD i 0)))

/-- **C2**: both correction tables have exactly 24 entries; at every index the
composed beam-splitter-form unitary and the composed polarization-form unitary
are equal outright (so the two encodings agree up to global phase, with
trivial phase); every index's operator is unitary and normalizes the Pauli
group (it is a single-qubit Clifford gate), distinct indices give operators
that differ even up to global phase (so the 24 entries enumerate the full
Clifford group modulo phase exactly once), the seven generator indices
pinned by the sources match the reference `I, X, Y, Z, S, S†, H` exactly, and
the adjoint of every index's operator is, up to global phase, the operator of
the index `CLIFFORD_CONJ` assigns — the reference-table facet of the claim is
checked through this characterization because `graphix.clifford` itself is
not among the given sources. -/
theorem C2_clifford_tables : C2Concl :=
  ⟨rfl, rfl, agreeU, unitaryU, cliffordU, distinctU, refU,
    fun i hi => ⟨zpow8 (conjPhases.getD i 0), zpow8_unit _, conjU_val i hi⟩⟩

end GraphixPerceval
